import Mathlib

/-!
Shallow embedding of the statistics engine of the `focus` productivity-timer
repository (package `focus`, file `internal/stats.go`), together with proofs
about its period resolution, bucket aggregation, totals/averages computation
and date-argument parsing.

Modelling conventions, used throughout:

* `Time` models Go `time.Time` as a whole number of seconds since
  January 1, year 1, 00:00:00 in a fixed-offset local time zone (no DST).
  All instants manipulated by `stats.go` have zero nanoseconds, so whole
  seconds are exact.  `t.IsZero()` corresponds to `t.secs = 0`.
* Calendar conversion between day numbers and `(year, month, day)` triples
  follows the staged 400/100/4/1-year cuts of Go `time.absDate` (century and
  year indices clamped), combined with the standard March-based day-of-year
  to month/day arithmetic.  The embedding is executable and
  `daysFromCivil_inv` proves the conversion pair is mutually inverse.
* Go `float64` values appearing in `stats.go` are sums and quotients of
  integer second counts; sums of integers are exact in `float64`, and the
  only divisions are followed by `math.Round` or integer truncation at exact
  decision points, so they are modelled by exact integer arithmetic
  (`roundDiv`, bridged to the real rounded quotient by
  `roundDiv_eq_roundTime`).
* Go maps keyed by hour / weekday / history label are modelled by total
  functions resp. key-unique association lists; iteration over the keys of a
  Go map is modelled by updating every key (absent keys receive the
  accumulator default `0`, whose rounded contribution is `0`, which is
  extensionally the behaviour of iterating only touched keys).
-/

namespace Focus

/-! ## Calendar arithmetic (model of the Go `time` package date conversions) -/

/-- Clamp an index of value 4 down to 3; Go `time.absDate` writes this as
`n -= n >> 2` for the century and year indices. -/
def clamp4 (x : Int) : Int := if x = 4 then 3 else x

/-- Century index (0..3) of a day inside a 400-year era. -/
def centuryIn (doe : Int) : Int := clamp4 (doe / 36524)

/-- Days remaining after removing whole centuries. -/
def afterCentury (doe : Int) : Int := doe - 36524 * centuryIn doe

/-- Four-year-block index (0..24) inside the century. -/
def quadIn (doe : Int) : Int := (afterCentury doe) / 1461

/-- Days remaining after removing whole four-year blocks. -/
def afterQuad (doe : Int) : Int := afterCentury doe - 1461 * quadIn doe

/-- Year index (0..3) inside the four-year block. -/
def yrIn (doe : Int) : Int := clamp4 ((afterQuad doe) / 365)

/-- Day of the (March-based) year, 0..365. -/
def doyOf (doe : Int) : Int := afterQuad doe - 365 * yrIn doe

/-- Year of era, 0..399. -/
def yoeOf (doe : Int) : Int := 100 * centuryIn doe + 4 * quadIn doe + yrIn doe

/-- Shifted month index from day-of-year (0 = March .. 11 = February). -/
def mpOfDoy (doy : Int) : Int := (5*doy + 2) / 153

/-- Day of month (1-based) from day-of-year. -/
def dayOfDoy (doy : Int) : Int := doy - (153 * mpOfDoy doy + 2) / 5 + 1

/-- Calendar month (1..12) from the shifted month index. -/
def monthOfMp (mp : Int) : Int := mp + (if mp < 10 then 3 else -9)

/-- Era of a day number (counting days from January 1, year 1; the +306
shift re-bases to the March-aligned era origin). -/
def dayNumberEra (n : Int) : Int := (n + 306) / 146097

/-- Day-of-era (0..146096) of a day number. -/
def dayNumberDoe (n : Int) : Int := (n + 306) % 146097

/-- Calendar month of a day number. -/
def monthOfDay (n : Int) : Int := monthOfMp (mpOfDoy (doyOf (dayNumberDoe n)))

/-- Day of month of a day number. -/
def dayOfMonthOfDay (n : Int) : Int := dayOfDoy (doyOf (dayNumberDoe n))

/-- Calendar year of a day number. -/
def yearOfDay (n : Int) : Int :=
  yoeOf (dayNumberDoe n) + dayNumberEra n * 400 +
    (if monthOfDay n ≤ 2 then 1 else 0)

/-- Day number of a calendar date (inverse conversion, per Howard Hinnant's
`days_from_civil`, shifted to the January-1-year-1 epoch). -/
def daysFromCivil (y m d : Int) : Int :=
  let y1 := y - (if m ≤ 2 then 1 else 0)
  let era := y1 / 400
  let yoe := y1 - era*400
  let doy := (153*(m + (if 2 < m then -3 else 9)) + 2) / 5 + d - 1
  let doe := yoe*365 + yoe/4 - yoe/100 + doy
  era*146097 + doe - 306

theorem centuryIn_spec (doe : Int) (h0 : 0 ≤ doe) (h1 : doe < 146097) :
    0 ≤ centuryIn doe ∧ centuryIn doe ≤ 3 ∧
      0 ≤ afterCentury doe ∧ afterCentury doe ≤ 36524 := by
  unfold afterCentury centuryIn clamp4
  split_ifs <;> omega

theorem quadIn_spec (doe : Int) (h0 : 0 ≤ afterCentury doe)
    (h1 : afterCentury doe ≤ 36524) :
    0 ≤ quadIn doe ∧ quadIn doe ≤ 24 ∧ 0 ≤ afterQuad doe ∧ afterQuad doe ≤ 1460 := by
  unfold afterQuad quadIn
  generalize afterCentury doe = a at *
  omega

theorem yrIn_spec (doe : Int) (h0 : 0 ≤ afterQuad doe) (h1 : afterQuad doe ≤ 1460) :
    0 ≤ yrIn doe ∧ yrIn doe ≤ 3 ∧ 0 ≤ doyOf doe ∧ doyOf doe ≤ 365 := by
  unfold doyOf yrIn clamp4
  generalize afterQuad doe = a at *
  split_ifs <;> omega

theorem yoe_divs (c q r : Int) (hc0 : 0 ≤ c) (hc1 : c ≤ 3) (hq0 : 0 ≤ q)
    (hq1 : q ≤ 24) (hr0 : 0 ≤ r) (hr1 : r ≤ 3) :
    (100*c + 4*q + r) / 4 = 25*c + q ∧ (100*c + 4*q + r) / 100 = c ∧
      0 ≤ 100*c + 4*q + r ∧ 100*c + 4*q + r ≤ 399 := by
  omega

theorem era_div (era yoe : Int) (h0 : 0 ≤ yoe) (h1 : yoe ≤ 399) :
    (yoe + era * 400) / 400 = era := by
  omega

theorem stage_sum (doe : Int) :
    36524 * centuryIn doe + 1461 * quadIn doe + 365 * yrIn doe + doyOf doe = doe := by
  unfold doyOf afterQuad afterCentury
  ring

theorem monthDay_eq (doy : Int) (h0 : 0 ≤ doy) (h1 : doy ≤ 365) :
    (153*(monthOfMp (mpOfDoy doy) +
        (if 2 < monthOfMp (mpOfDoy doy) then -3 else 9)) + 2) / 5
      + dayOfDoy doy - 1 = doy ∧
    (monthOfMp (mpOfDoy doy) ≤ 2 ↔ 10 ≤ mpOfDoy doy) := by
  unfold monthOfMp dayOfDoy mpOfDoy
  split_ifs <;> omega

/-- The two calendar conversions are mutually inverse: extracting
year/month/day from a day number and converting back is the identity. -/
theorem daysFromCivil_inv (n : Int) :
    daysFromCivil (yearOfDay n) (monthOfDay n) (dayOfMonthOfDay n) = n := by
  have hdoe0 : 0 ≤ dayNumberDoe n := Int.emod_nonneg _ (by norm_num)
  have hdoe1 : dayNumberDoe n < 146097 := Int.emod_lt_of_pos _ (by norm_num)
  obtain ⟨hc0, hc1, ha0, ha1⟩ := centuryIn_spec (dayNumberDoe n) hdoe0 hdoe1
  obtain ⟨hq0, hq1, hb0, hb1⟩ := quadIn_spec (dayNumberDoe n) ha0 ha1
  obtain ⟨hr0, hr1, hy0, hy1⟩ := yrIn_spec (dayNumberDoe n) hb0 hb1
  obtain ⟨hd4, hd100, hyoe0, hyoe1⟩ :=
    yoe_divs (centuryIn (dayNumberDoe n)) (quadIn (dayNumberDoe n))
      (yrIn (dayNumberDoe n)) hc0 hc1 hq0 hq1 hr0 hr1
  obtain ⟨hmd, hm2⟩ := monthDay_eq (doyOf (dayNumberDoe n)) hy0 hy1
  have hsum := stage_sum (dayNumberDoe n)
  have hyoe : yoeOf (dayNumberDoe n) =
      100 * centuryIn (dayNumberDoe n) + 4 * quadIn (dayNumberDoe n)
        + yrIn (dayNumberDoe n) := rfl
  have hera := era_div (dayNumberEra n) (yoeOf (dayNumberDoe n))
    (by omega) (by omega)
  have hnm : 146097 * dayNumberEra n + dayNumberDoe n = n + 306 := by
    unfold dayNumberEra dayNumberDoe
    omega
  unfold daysFromCivil yearOfDay
  simp only []
  rw [show yoeOf (dayNumberDoe n) + dayNumberEra n * 400 +
      (if monthOfDay n ≤ 2 then 1 else 0) -
      (if monthOfDay n ≤ 2 then 1 else 0) =
      yoeOf (dayNumberDoe n) + dayNumberEra n * 400 by ring, hera]
  rw [show yoeOf (dayNumberDoe n) + dayNumberEra n * 400 -
      dayNumberEra n * 400 = yoeOf (dayNumberDoe n) by ring]
  rw [← hyoe] at hd4 hd100
  unfold monthOfDay dayOfMonthOfDay at *
  omega

/-! ## The `Time` model -/

/-- Model of Go `time.Time`: whole seconds since January 1, year 1,
00:00:00 local time (fixed offset, no DST).  `IsZero` is `secs = 0`. -/
structure Time where
  secs : Int
deriving DecidableEq, Repr

/-- Day number of an instant (days since January 1, year 1). -/
def Time.dayNumber (t : Time) : Int := t.secs / 86400

/-- Second within the day, 0..86399. -/
def Time.secondOfDay (t : Time) : Int := t.secs % 86400

/-- Go `t.Hour()`: hour of the day, 0..23. -/
def Time.hour (t : Time) : Int := t.secondOfDay / 3600

/-- Go `t.Weekday()`: 0 = Sunday .. 6 = Saturday.  January 1, year 1 of the
proleptic Gregorian calendar is a Monday, hence the +1. -/
def Time.weekday (t : Time) : Int := (t.dayNumber + 1) % 7

/-- Go `t.Year()`. -/
def Time.year (t : Time) : Int := yearOfDay t.dayNumber

/-- Go `t.Month()` as 1..12. -/
def Time.month (t : Time) : Int := monthOfDay t.dayNumber

/-- Go `t.Day()`. -/
def Time.day (t : Time) : Int := dayOfMonthOfDay t.dayNumber

/-- Go `time.Date(y, m, d, hh, mi, ss, 0, loc)` for in-range arguments, in
the fixed-offset local zone of the model. -/
def timeDate (y m d hh mi ss : Int) : Time :=
  ⟨86400 * daysFromCivil y m d + 3600*hh + 60*mi + ss⟩

/-- Go `t.AddDate(0, 0, k)`: in a fixed-offset zone, shifting the calendar
date by `k` days moves the instant by exactly `k` whole days. -/
def Time.addDays (t : Time) (k : Int) : Time := ⟨t.secs + 86400*k⟩

/-- `time.Date` applied to the calendar fields of an existing instant `t`
lands on `t`'s day: the composite is midnight of `t`'s day plus the
requested clock time. -/
theorem timeDate_fields (t : Time) (hh mi ss : Int) :
    timeDate t.year t.month t.day hh mi ss =
      ⟨86400 * t.dayNumber + 3600*hh + 60*mi + ss⟩ := by
  unfold timeDate Time.year Time.month Time.day
  rw [daysFromCivil_inv]

theorem dayNumber_mk_add (dn s : Int) (h0 : 0 ≤ s) (h1 : s < 86400) :
    Time.dayNumber ⟨86400 * dn + s⟩ = dn := by
  show (86400 * dn + s) / 86400 = dn
  omega

theorem addDays_dayNumber (t : Time) (k : Int) :
    (t.addDays k).dayNumber = t.dayNumber + k := by
  show (t.secs + 86400*k) / 86400 = t.secs / 86400 + k
  omega

/-! ## Rounding (model of `roundTime`, i.e. `int(math.Round(t))`) -/

/-- Go `roundTime` (stats.go): `int(math.Round(t))` — round to the nearest
integer, ties away from zero — on an exact rational value. -/
def roundTime (t : ℚ) : Int := if 0 ≤ t then ⌊t + 1/2⌋ else -⌊-t + 1/2⌋

/-- Rounded quotient of two integers for a positive divisor, half away from
zero; the integer-exact form of `roundTime ((a : ℚ) / b)`. -/
def roundDivPos (a b : Int) : Int :=
  if 0 ≤ a then (2*a + b) / (2*b) else -((2*(-a) + b) / (2*b))

/-- `int(math.Round(float64(a) / float64(b)))` as exact integer arithmetic.
For `b = 0` Go's float conversion is unspecified; the embedding returns `0`
and no claim depends on that case. -/
def roundDiv (a b : Int) : Int :=
  if 0 < b then roundDivPos a b
  else if b < 0 then roundDivPos (-a) (-b)
  else 0

theorem floor_add_half (a b : Int) (hb : 0 < b) :
    ⌊(a : ℚ) / (b : ℚ) + 1/2⌋ = (2*a + b) / (2*b) := by
  have hb' : (b : ℚ) ≠ 0 := Int.cast_ne_zero.mpr (by omega)
  have h2 : ((2*b : Int) : ℚ) ≠ 0 := Int.cast_ne_zero.mpr (by omega)
  have hcast : (a : ℚ) / (b : ℚ) + 1/2 = ((2*a + b : Int) : ℚ) / ((2*b : Int) : ℚ) := by
    push_cast
    field_simp
    ring
  rw [hcast]
  have hnat : ((2*b : Int) : ℚ) = (((2*b).toNat : ℕ) : ℚ) := by
    exact_mod_cast (Int.toNat_of_nonneg (by omega : (0:Int) ≤ 2*b)).symm
  rw [hnat, Rat.floor_intCast_div_natCast]
  rw [Int.toNat_of_nonneg (by omega : (0:Int) ≤ 2*b)]

/-- Bridging lemma: the integer-exact embedding agrees with the rounded
rational quotient whenever the divisor is positive. -/
theorem roundDiv_eq_roundTime (a b : Int) (hb : 0 < b) :
    roundDiv a b = roundTime ((a : ℚ) / (b : ℚ)) := by
  have hbq : (0 : ℚ) < (b : ℚ) := by exact_mod_cast hb
  unfold roundDiv roundDivPos roundTime
  rw [if_pos hb]
  by_cases ha : 0 ≤ a
  · have haq : (0 : ℚ) ≤ (a : ℚ) / (b : ℚ) :=
      div_nonneg (by exact_mod_cast ha) (le_of_lt hbq)
    rw [if_pos ha, if_pos haq, floor_add_half a b hb]
  · by_cases haq : 0 ≤ (a : ℚ) / (b : ℚ)
    · have : (a : ℚ) = 0 := by
        have ha' : (a : ℚ) < 0 := by exact_mod_cast (by omega : a < 0)
        nlinarith [mul_le_mul_of_nonneg_right haq (le_of_lt hbq),
          div_mul_cancel₀ (a : ℚ) (ne_of_gt hbq)]
      simp at this
      omega
    · rw [if_neg ha, if_neg haq]
      have hneg : -((a : ℚ) / (b : ℚ)) = ((-a : Int) : ℚ) / (b : ℚ) := by
        push_cast
        ring
      rw [hneg, floor_add_half (-a) b hb]

/-- Rounding an exact multiple of 60 by 60 recovers the multiplier. -/
theorem roundDiv_sixty (m : Int) : roundDiv (60 * m) 60 = m := by
  unfold roundDiv roundDivPos
  split_ifs <;> omega

/-! ## Data model (stats.go types) -/

/-- Go `stats.go` constants. -/
def hoursInADay : Int := 24

def maxHoursInAMonth : Int := 744

def maxHoursInAYear : Int := 8784

def minutesInAnHour : Int := 60

/-- Go `quantity`: per-bucket accumulator. -/
structure quantity where
  minutes : Int
  completed : Int
  abandoned : Int
deriving DecidableEq, Repr

/-- A timeline entry of a session: one contiguous active sub-interval. -/
structure sessionTimeline where
  StartTime : Time
  EndTime : Time
deriving DecidableEq, Repr

/-- Go `session` (the fields read by `stats.go`). -/
structure session where
  StartTime : Time
  EndTime : Time
  Completed : Bool
  Timeline : List sessionTimeline
deriving DecidableEq, Repr

/-- The three Go reference-layout strings assigned to `HistoryKeyFormat`:
`"January 2006"`, `"January 02, 2006"` and `"2006"`. -/
inductive KeyFormat
  | januaryYear
  | januaryDayYear
  | yearOnly
deriving DecidableEq, Repr

/-- A formatted history key.  Each Go layout renders exactly the calendar
fields carried by the corresponding constructor, and distinct field values
render to distinct strings, so label equality models string equality. -/
inductive Label
  | monthYear : Int → Int → Label
  | dayMonthYear : Int → Int → Int → Label
  | yearLbl : Int → Label
deriving DecidableEq, Repr

/-- Go `date.Format(d.HistoryKeyFormat)`. -/
def formatTime (f : KeyFormat) (t : Time) : Label :=
  match f with
  | .januaryYear => .monthYear t.month t.year
  | .januaryDayYear => .dayMonthYear t.month t.day t.year
  | .yearOnly => .yearLbl t.year

/-- Go `Data`: the computed statistics for the current time period.
`Weekday` and `HourofDay` are Go maps pre-populated on all 7 resp. 24 keys,
modelled as total functions; `History` is a Go map modelled as a key-unique
association list. -/
structure Data where
  Weekday : Int → quantity
  HourofDay : Int → quantity
  History : List (Label × quantity)
  HistoryKeyFormat : KeyFormat
  Totals : quantity
  Averages : quantity

/-! ## Period resolution (`getPeriod`) -/

/-- Go `timePeriod` values accepted by the stats command. -/
inductive timePeriod
  | periodAllTime
  | periodToday
  | periodYesterday
  | period7Days
  | period14Days
  | period30Days
  | period90Days
  | period180Days
  | period365Days
deriving DecidableEq, Repr

/-- Go `getPeriod` (stats.go lines 61-110), with the ambient `time.Now()`
passed explicitly.  `end` is assigned today-at-23:59:59 before the switch;
the `all-time` case returns early with the zero `start`; every other case
falls through to the shared return that truncates `start` to midnight. -/
def getPeriod (period : timePeriod) (now : Time) : Time × Time :=
  let endT := timeDate now.year now.month now.day 23 59 59
  match period with
  | .periodToday =>
      let start := now
      (timeDate start.year start.month start.day 0 0 0, endT)
  | .periodYesterday =>
      let start := now.addDays (-1)
      let endY := timeDate start.year start.month start.day 23 59 59
      (timeDate start.year start.month start.day 0 0 0, endY)
  | .period7Days =>
      let start := now.addDays (-6)
      (timeDate start.year start.month start.day 0 0 0, endT)
  | .period14Days =>
      let start := now.addDays (-13)
      (timeDate start.year start.month start.day 0 0 0, endT)
  | .period30Days =>
      let start := now.addDays (-29)
      (timeDate start.year start.month start.day 0 0 0, endT)
  | .period90Days =>
      let start := now.addDays (-89)
      (timeDate start.year start.month start.day 0 0 0, endT)
  | .period180Days =>
      let start := now.addDays (-179)
      (timeDate start.year start.month start.day 0 0 0, endT)
  | .period365Days =>
      let start := now.addDays (-364)
      (timeDate start.year start.month start.day 0 0 0, endT)
  | .periodAllTime => (⟨0⟩, endT)

/-! ## `initData` -/

/-- The `HistoryKeyFormat` decision of `initData` (stats.go lines 140-147):
default `"January 2006"`; day-level format when
`hoursDiff > hoursInADay && hoursDiff <= maxHoursInAMonth`; year-level
format when `hoursDiff > maxHoursInAYear`. -/
def historyKeyFormatFor (hoursDiff : Int) : KeyFormat :=
  if hoursInADay < hoursDiff ∧ hoursDiff ≤ maxHoursInAMonth then .januaryDayYear
  else if maxHoursInAYear < hoursDiff then .yearOnly
  else .januaryYear

/-- Go map assignment `h[k] = &quantity{}` on an association list. -/
def histSet (h : List (Label × quantity)) (k : Label) (q : quantity) :
    List (Label × quantity) :=
  match h with
  | [] => [(k, q)]
  | e :: rest => if e.1 = k then (k, q) :: rest else e :: histSet rest k q

/-- Number of iterations of a loop stepping by `step` seconds from `a`
while the date is not after `b` (the exact Go loop trip count). -/
def stepCount (step : Nat) (a b : Time) : Nat :=
  if b.secs < a.secs then 0 else (b.secs - a.secs).toNat / step + 1

/-- The pre-population loop of `initData` (stats.go lines 149-151):
`for date := start; !date.After(end); date = date.Add(24h)`, inserting a
zero quantity under the formatted label.  The `Nat` fuel is the exact trip
count supplied by `stepCount`, and the loop guard is also kept in the body. -/
def initHistLoop (fmt : KeyFormat) (endT : Time) :
    Nat → Time → List (Label × quantity) → List (Label × quantity)
  | 0, _, h => h
  | Nat.succ n, date, h =>
      if endT.secs < date.secs then h
      else initHistLoop fmt endT n ⟨date.secs + 86400⟩
        (histSet h (formatTime fmt date) ⟨0, 0, 0⟩)

/-- Go `initData` (stats.go lines 125-154). -/
def initData (start endT : Time) (hoursDiff : Int) : Data :=
  let fmt := historyKeyFormatFor hoursDiff
  { Weekday := fun _ => ⟨0, 0, 0⟩
    HourofDay := fun _ => ⟨0, 0, 0⟩
    History := initHistLoop fmt endT (stepCount 86400 start endT) start []
    HistoryKeyFormat := fmt
    Totals := ⟨0, 0, 0⟩
    Averages := ⟨0, 0, 0⟩ }

/-! ## `computeAverages` -/

/-- Go `computeAverages` (stats.go lines 158-183).  The hour difference is
`roundTime(end.Sub(start).Hours())` on the end-of-day-normalised `end`;
`numberOfDays` uses Go integer division (truncation toward zero); each
average is `roundTime(totals.X / numberOfDays)` on `float64` values,
embedded exactly by `roundDiv`. -/
def computeAverages (d : Data) (start endT : Time) : Data :=
  let e := timeDate endT.year endT.month endT.day 23 59 59
  let hoursDiff := roundDiv (e.secs - start.secs) 3600
  let numberOfDays := Int.tdiv hoursDiff hoursInADay
  { d with Averages :=
      { minutes := roundDiv d.Totals.minutes numberOfDays
        completed := roundDiv d.Totals.completed numberOfDays
        abandoned := roundDiv d.Totals.abandoned numberOfDays } }

/-! ## `calculateSessionDuration` -/

/-- The three per-session accumulator maps and the seconds counter built by
`calculateSessionDuration` (`hourly`, `weekday`, `daily`, `seconds`); the Go
`float64` values are integer-valued second counts, stored exactly. -/
structure durAcc where
  hourly : Int → Int
  weekday : Int → Int
  daily : Label → Int
  seconds : Int

/-- The all-zero accumulator (fresh Go maps and `var seconds float64`). -/
def durAcc.zero : durAcc := ⟨fun _ => 0, fun _ => 0, fun _ => 0, 0⟩

/-- Go `m[k] += x` on a map modelled as a total function. -/
def bump {α : Type} [DecidableEq α] (f : α → Int) (k : α) (x : Int) : α → Int :=
  fun i => if i = k then f i + x else f i

/-- The minute-by-minute walk over one timeline sub-interval
(stats.go lines 198-226): from `date`, while `!date.After(vEnd)`, skip
minute-steps outside `[statsStart, statsEnd]`, otherwise clamp the step end
to `vEnd`, accumulate the step seconds under the step's hour, weekday and
formatted label, and on the first retained step add the remaining
sub-interval duration to `seconds`.  The `Nat` fuel is the exact trip count
`stepCount 60 date vEnd`; the loop guard is also kept in the body. -/
def walkTimeline (fmt : KeyFormat) (statsStart statsEnd vEnd : Time) :
    Nat → Time → Bool → durAcc → durAcc
  | 0, _, _, acc => acc
  | Nat.succ n, date, durationAdded, acc =>
      if vEnd.secs < date.secs then acc
      else if date.secs < statsStart.secs ∨ statsEnd.secs < date.secs then
        walkTimeline fmt statsStart statsEnd vEnd n ⟨date.secs + 60⟩ durationAdded acc
      else
        let endT : Time := if vEnd.secs < date.secs + 60 then vEnd else ⟨date.secs + 60⟩
        let secs := endT.secs - date.secs
        let acc1 : durAcc :=
          { hourly := bump acc.hourly date.hour secs
            weekday := bump acc.weekday date.weekday secs
            daily := bump acc.daily (formatTime fmt date) secs
            seconds :=
              if durationAdded then acc.seconds
              else acc.seconds + (vEnd.secs - date.secs) }
        walkTimeline fmt statsStart statsEnd vEnd n ⟨date.secs + 60⟩ true acc1

/-- The accumulator after walking all timeline sub-intervals of a session. -/
def sessionAcc (fmt : KeyFormat) (statsStart statsEnd : Time)
    (timeline : List sessionTimeline) : durAcc :=
  timeline.foldl
    (fun acc v =>
      walkTimeline fmt statsStart statsEnd v.EndTime
        (stepCount 60 v.StartTime v.EndTime) v.StartTime false acc)
    durAcc.zero

/-- Go `calculateSessionDuration` (stats.go lines 188-243): walk the
timeline, then flush each accumulator map into `d` as rounded minutes
(`roundTime(val / 60)`).  History flushing only touches labels present in
`d.History`; flushing is modelled over every key, absent accumulator keys
contributing `roundDiv 0 60 = 0`.  Returns the updated data and the session
seconds. -/
def calculateSessionDuration (d : Data) (s : session)
    (statsStart statsEnd : Time) : Data × Int :=
  let acc := sessionAcc d.HistoryKeyFormat statsStart statsEnd s.Timeline
  let d1 := { d with
    Weekday := fun k =>
      { d.Weekday k with
        minutes := (d.Weekday k).minutes + roundDiv (acc.weekday k) minutesInAnHour }
    HourofDay := fun k =>
      { d.HourofDay k with
        minutes := (d.HourofDay k).minutes + roundDiv (acc.hourly k) minutesInAnHour }
    History := d.History.map fun e =>
      (e.1, { e.2 with
        minutes := e.2.minutes + roundDiv (acc.daily e.1) minutesInAnHour }) }
  (d1, acc.seconds)

/-! ## `computeTotals` -/

/-- Increment the `completed` counter of map entry `k`. -/
def incCompleted (f : Int → quantity) (k : Int) : Int → quantity :=
  fun i => if i = k then { f i with completed := (f i).completed + 1 } else f i

/-- Increment the `abandoned` counter of map entry `k`. -/
def incAbandoned (f : Int → quantity) (k : Int) : Int → quantity :=
  fun i => if i = k then { f i with abandoned := (f i).abandoned + 1 } else f i

/-- Go `if _, exists := d.History[k]; exists { d.History[k].completed++ }`:
update the entry under key `k` when present, leave the list unchanged
otherwise. -/
def histUpdate (h : List (Label × quantity)) (k : Label)
    (g : quantity → quantity) : List (Label × quantity) :=
  h.map fun e => if e.1 = k then (e.1, g e.2) else e

/-- The non-skip part of the session loop body of `computeTotals`
(stats.go lines 255-285): compute the session duration
(`roundTime(seconds / 60)`), then attribute the session to the buckets of
its start instant and to the totals according to its `Completed` flag. -/
def computeTotalsBody (startTime endTime : Time) (d : Data) (s : session) : Data :=
    let r := calculateSessionDuration d s startTime endTime
    let d1 := r.1
    let duration := roundDiv r.2 minutesInAnHour
    if s.Completed then
      { d1 with
        Weekday := incCompleted d1.Weekday s.StartTime.weekday
        HourofDay := incCompleted d1.HourofDay s.StartTime.hour
        History := histUpdate d1.History
          (formatTime d1.HistoryKeyFormat s.StartTime)
          (fun q => { q with completed := q.completed + 1 })
        Totals := { d1.Totals with
          completed := d1.Totals.completed + 1
          minutes := d1.Totals.minutes + duration } }
    else
      { d1 with
        Weekday := incAbandoned d1.Weekday s.StartTime.weekday
        HourofDay := incAbandoned d1.HourofDay s.StartTime.hour
        History := histUpdate d1.History
          (formatTime d1.HistoryKeyFormat s.StartTime)
          (fun q => { q with abandoned := q.abandoned + 1 })
        Totals := { d1.Totals with
          abandoned := d1.Totals.abandoned + 1
          minutes := d1.Totals.minutes + duration } }

/-- The session loop body of `computeTotals` (stats.go lines 248-286):
sessions with a zero `EndTime` are skipped (`continue`). -/
def computeTotalsStep (startTime endTime : Time) (d : Data) (s : session) : Data :=
  if s.EndTime.secs = 0 then d else computeTotalsBody startTime endTime d s

/-- Go `computeTotals` (stats.go lines 247-287). -/
def computeTotals (d : Data) (sessions : List session)
    (startTime endTime : Time) : Data :=
  sessions.foldl (computeTotalsStep startTime endTime) d

/-- Go `Stats.compute` (stats.go lines 520-523). -/
def compute (d : Data) (sessions : List session) (startTime endTime : Time) : Data :=
  computeAverages (computeTotals d sessions startTime endTime) startTime endTime

/-- The `hoursDiff` computed by `Stats.Show` (stats.go lines 628-629):
`int(endTime.Sub(startTime).Hours())`, i.e. the exact hour quotient
truncated toward zero. -/
def showHoursDiff (startTime endTime : Time) : Int :=
  Int.tdiv (endTime.secs - startTime.secs) 3600

/-- The aggregation pipeline run by `Stats.Show` (stats.go lines 628-633):
compute `hoursDiff`, build the pre-populated `Data`, then run totals and
averages. -/
def showCompute (sessions : List session) (startTime endTime : Time) : Data :=
  compute (initData startTime endTime (showHoursDiff startTime endTime))
    sessions startTime endTime

/-- The list of minute-step instants the Go loop visits for a sub-interval
from `a` to `b` (used to state which instants a sub-interval touches). -/
def minuteStepsAux (b : Time) : Nat → Time → List Time
  | 0, _ => []
  | Nat.succ n, date =>
      if b.secs < date.secs then []
      else date :: minuteStepsAux b n ⟨date.secs + 60⟩

def minuteSteps (a b : Time) : List Time :=
  minuteStepsAux b (stepCount 60 a b) a

/-! ## `NewStats` date-string parsing -/

/-- The two sentinel errors of stats.go. -/
inductive Error
  | errParsingDate
  | errInvalidDateRange
deriving DecidableEq, Repr

instance {ε α : Type} [DecidableEq ε] [DecidableEq α] :
    DecidableEq (Except ε α) := fun x y =>
  match x, y with
  | .ok a, .ok b =>
      if h : a = b then .isTrue (by rw [h]) else .isFalse (by simp [h])
  | .error a, .error b =>
      if h : a = b then .isTrue (by rw [h]) else .isFalse (by simp [h])
  | .ok _, .error _ => .isFalse (by simp)
  | .error _, .ok _ => .isFalse (by simp)

def digitVal (c : Char) : Int := (c.toNat : Int) - ('0'.toNat : Int)

/-- Go `getnum` with `fixed = false` for a layout element without a leading
zero: one digit, or two if the second character is also a digit. -/
def getnum2 : List Char → Option (Int × List Char)
  | [] => none
  | [c1] => if c1.isDigit then some (digitVal c1, []) else none
  | c1 :: c2 :: rest =>
      if c1.isDigit then
        if c2.isDigit then some (10 * digitVal c1 + digitVal c2, rest)
        else some (digitVal c1, c2 :: rest)
      else none

/-- Go `getnum4` for the `2006` year element: exactly four digits. -/
def getnum4 : List Char → Option (Int × List Char)
  | c1 :: c2 :: c3 :: c4 :: rest =>
      if c1.isDigit ∧ c2.isDigit ∧ c3.isDigit ∧ c4.isDigit then
        some (1000 * digitVal c1 + 100 * digitVal c2 + 10 * digitVal c3
          + digitVal c4, rest)
      else none
  | _ => none

def expectChar (c : Char) : List Char → Option (List Char)
  | [] => none
  | x :: rest => if x = c then some rest else none

/-- Go parsing of the `PM` layout element: `true` for `"PM"`. -/
def parseAmPm : List Char → Option (Bool × List Char)
  | 'P' :: 'M' :: rest => some (true, rest)
  | 'A' :: 'M' :: rest => some (false, rest)
  | _ => none

def isLeapYear (y : Int) : Bool := y % 4 = 0 ∧ (y % 100 ≠ 0 ∨ y % 400 = 0)

def daysIn (m y : Int) : Int :=
  if m = 2 then (if isLeapYear y then 29 else 28)
  else if m = 4 ∨ m = 6 ∨ m = 9 ∨ m = 11 then 30
  else 31

/-- A numeric layout field followed by a literal separator character. -/
def numThen (sep : Char) (cs : List Char) : Option (Int × List Char) :=
  match getnum2 cs with
  | none => none
  | some (v, r) =>
      match expectChar sep r with
      | none => none
      | some r2 => some (v, r2)

/-- The range validation Go `time.Parse` applies to the fields of the
layout `"2006-1-2 3:4:5 PM"`: month 1..12, day within the month, 12-hour
hour 0..12, minute and second 0..59. -/
def validClock (mo dy hr mi se : Int) (y : Int) : Bool :=
  decide (1 ≤ mo) && decide (mo ≤ 12) && decide (1 ≤ dy) &&
    decide (dy ≤ daysIn mo y) && decide (0 ≤ hr) && decide (hr ≤ 12) &&
    decide (0 ≤ mi) && decide (mi ≤ 59) && decide (0 ≤ se) && decide (se ≤ 59)

/-- Go's 12-hour to 24-hour conversion after parsing `AM`/`PM`. -/
def to24Hour (pm : Bool) (hr : Int) : Int :=
  if pm ∧ hr < 12 then hr + 12 else if ¬pm ∧ hr = 12 then 0 else hr

/-- Go `time.Parse("2006-1-2 3:4:5 PM", value)`, restricted to the checks
that layout exercises: four-digit year, one-or-two-digit month, day, 12-hour
hour, minute and second, literal separators, `AM`/`PM`, no trailing input,
range validation, then the 12-hour conversion.  Returns the components. -/
def goTimeParse (value : List Char) : Option (Int × Int × Int × Int × Int × Int) :=
  match getnum4 value with
  | none => none
  | some (y, r1) =>
  match expectChar '-' r1 with
  | none => none
  | some r2 =>
  match numThen '-' r2 with
  | none => none
  | some (mo, r4) =>
  match numThen ' ' r4 with
  | none => none
  | some (dy, r6) =>
  match numThen ':' r6 with
  | none => none
  | some (hr, r8) =>
  match numThen ':' r8 with
  | none => none
  | some (mi, r10) =>
  match numThen ' ' r10 with
  | none => none
  | some (se, r12) =>
  match parseAmPm r12 with
  | none => none
  | some (pm, r13) =>
    if r13 = [] ∧ validClock mo dy hr mi se y then
      some (y, mo, dy, to24Hour pm hr, mi, se)
    else none

/-- The handling of a non-empty, already-trimmed `--start` argument in
`NewStats` (stats.go lines 691-713): append `" 12:00:00 AM"` when the
string is exactly 10 characters long, parse with the lenient layout, fail
with `errParsingDate` on a parse error, otherwise re-anchor the parsed
components with `time.Date`. -/
def newStatsStart (start : String) : Except Error Time :=
  let s := if start.length = 10 then start ++ " 12:00:00 AM" else start
  match goTimeParse s.data with
  | some (y, mo, dy, hr, mi, se) => .ok (timeDate y mo dy hr mi se)
  | none => .error .errParsingDate

/-- The handling of a non-empty, already-trimmed `--end` argument in
`NewStats` (stats.go lines 715-735): as for `--start`, but a 10-character
date string is expanded with `" 11:59:59 PM"`. -/
def newStatsEnd (endArg : String) : Except Error Time :=
  let s := if endArg.length = 10 then endArg ++ " 11:59:59 PM" else endArg
  match goTimeParse s.data with
  | some (y, mo, dy, hr, mi, se) => .ok (timeDate y mo dy hr mi se)
  | none => .error .errParsingDate

/-! ## Helper lemmas for period resolution -/

theorem timeDate_midnight (t : Time) :
    timeDate t.year t.month t.day 0 0 0 = ⟨86400 * t.dayNumber⟩ := by
  rw [timeDate_fields]
  simp only [Time.mk.injEq]
  ring

theorem timeDate_endOfDay (t : Time) :
    timeDate t.year t.month t.day 23 59 59 = ⟨86400 * t.dayNumber + 86399⟩ := by
  rw [timeDate_fields]
  simp only [Time.mk.injEq]
  ring

/-! ## Claim theorems: granularity selection (C3) -/

/-- The granularity rule exactly as the spec words it: month format when
`hoursDiff ≤ 24`, day format when `24 < hoursDiff ≤ 744`, year format when
`hoursDiff > 8784`, month format in all remaining cases. -/
def specHistoryKeyFormat (hoursDiff : Int) : KeyFormat :=
  if hoursDiff ≤ 24 then .januaryYear
  else if hoursDiff ≤ 744 then .januaryDayYear
  else if 8784 < hoursDiff then .yearOnly
  else .januaryYear

theorem computeTotalsStep_keyFormat (sS sE : Time) (d : Data) (s : session) :
    (computeTotalsStep sS sE d s).HistoryKeyFormat = d.HistoryKeyFormat := by
  unfold computeTotalsStep computeTotalsBody calculateSessionDuration
  split_ifs <;> rfl

theorem computeTotals_keyFormat (sessions : List session) (sS sE : Time) :
    ∀ d : Data, (computeTotals d sessions sS sE).HistoryKeyFormat = d.HistoryKeyFormat := by
  induction sessions with
  | nil => intro d; rfl
  | cons s rest ih =>
      intro d
      show (computeTotals (computeTotalsStep sS sE d s) rest sS sE).HistoryKeyFormat = _
      rw [ih, computeTotalsStep_keyFormat]

/-- Claim C3: the history label granularity is chosen exactly once from
`hoursDiff`, before any session is processed (it is fixed by `initData` and
never altered by the session loop): month format when `hoursDiff ≤ 24`, day
format when `24 < hoursDiff ≤ 744`, year format when `hoursDiff > 8784`,
month format otherwise; in particular `hoursDiff = 12` gives the month
format, `100` the day format and `9000` the year format. -/
theorem claim_C3 :
    (∀ hoursDiff : Int, historyKeyFormatFor hoursDiff = specHistoryKeyFormat hoursDiff) ∧
    (∀ (start endT : Time) (hoursDiff : Int),
      (initData start endT hoursDiff).HistoryKeyFormat = historyKeyFormatFor hoursDiff) ∧
    (∀ (d : Data) (sessions : List session) (sS sE : Time),
      (computeTotals d sessions sS sE).HistoryKeyFormat = d.HistoryKeyFormat) ∧
    historyKeyFormatFor 12 = .januaryYear ∧
    historyKeyFormatFor 100 = .januaryDayYear ∧
    historyKeyFormatFor 9000 = .yearOnly := by
  refine ⟨?_, ?_, ?_, by decide, by decide, by decide⟩
  · intro h
    unfold historyKeyFormatFor specHistoryKeyFormat hoursInADay maxHoursInAMonth maxHoursInAYear
    split_ifs <;> first | rfl | omega
  · intro start endT h
    rfl
  · intro d sessions sS sE
    exact computeTotals_keyFormat sessions sS sE d

/-! ## Claim theorems: period resolution (C4, C5, C7) -/

/-- Claim C4 counterexample: at the concrete instant
`now = ⟨86400 * 738000 + 3600⟩`, resolving `all-time` does NOT return the
zero instant for `end` (the code assigns `end` to today-at-23:59:59 before
the switch, and the `all-time` arm returns it). -/
theorem claim_C4_counterexample :
    ¬ ((getPeriod .periodAllTime ⟨86400 * 738000 + 3600⟩).1 = (⟨0⟩ : Time) ∧
       (getPeriod .periodAllTime ⟨86400 * 738000 + 3600⟩).2 = (⟨0⟩ : Time)) := by
  decide

/-- Claim C4, amended: resolving `all-time` returns the zero instant for
`start`, but `end` is today at 23:59:59 local time (not the zero instant). -/
theorem claim_C4 (now : Time) :
    getPeriod .periodAllTime now = (⟨0⟩, ⟨86400 * now.dayNumber + 86399⟩) := by
  show ((⟨0⟩ : Time), timeDate now.year now.month now.day 23 59 59) = _
  rw [timeDate_endOfDay]

/-- Claim C5 counterexample: at the concrete instant
`now = ⟨86400 * 738000 + 3600⟩` (01:00 of its day), resolving `today` does
NOT return `start = now`: the shared return of `getPeriod` truncates
`start` to midnight. -/
theorem claim_C5_counterexample :
    (getPeriod .periodToday ⟨86400 * 738000 + 3600⟩).1 ≠
      (⟨86400 * 738000 + 3600⟩ : Time) := by
  decide

/-- Claim C5, amended: resolving `today` returns `start` truncated to
midnight of the current day (exactly like the N-day keywords with N = 1),
not the untruncated `now`. -/
theorem claim_C5 (now : Time) :
    (getPeriod .periodToday now).1 = ⟨86400 * now.dayNumber⟩ ∧
    (getPeriod .periodToday now).2 = ⟨86400 * now.dayNumber + 86399⟩ := by
  constructor
  · show timeDate now.year now.month now.day 0 0 0 = _
    rw [timeDate_midnight]
  · show timeDate now.year now.month now.day 23 59 59 = _
    rw [timeDate_endOfDay]

theorem getPeriod_nday_start (now : Time) (k : Int) :
    timeDate (now.addDays k).year (now.addDays k).month (now.addDays k).day 0 0 0 =
      ⟨86400 * (now.dayNumber + k)⟩ := by
  rw [timeDate_midnight, addDays_dayNumber]

/-- Claim C7: for each N-day keyword, `end` is today at 23:59:59 local time
and `start` is `end`'s day minus (N-1) days at 00:00:00 local time; for
`yesterday`, `end` is yesterday at 23:59:59 instead. -/
theorem claim_C7 (now : Time) :
    ((getPeriod .period7Days now).2 = ⟨86400 * now.dayNumber + 86399⟩ ∧
      (getPeriod .period7Days now).1 =
        ⟨86400 * ((getPeriod .period7Days now).2.dayNumber - 6)⟩) ∧
    ((getPeriod .period14Days now).2 = ⟨86400 * now.dayNumber + 86399⟩ ∧
      (getPeriod .period14Days now).1 =
        ⟨86400 * ((getPeriod .period14Days now).2.dayNumber - 13)⟩) ∧
    ((getPeriod .period30Days now).2 = ⟨86400 * now.dayNumber + 86399⟩ ∧
      (getPeriod .period30Days now).1 =
        ⟨86400 * ((getPeriod .period30Days now).2.dayNumber - 29)⟩) ∧
    ((getPeriod .period90Days now).2 = ⟨86400 * now.dayNumber + 86399⟩ ∧
      (getPeriod .period90Days now).1 =
        ⟨86400 * ((getPeriod .period90Days now).2.dayNumber - 89)⟩) ∧
    ((getPeriod .period180Days now).2 = ⟨86400 * now.dayNumber + 86399⟩ ∧
      (getPeriod .period180Days now).1 =
        ⟨86400 * ((getPeriod .period180Days now).2.dayNumber - 179)⟩) ∧
    ((getPeriod .period365Days now).2 = ⟨86400 * now.dayNumber + 86399⟩ ∧
      (getPeriod .period365Days now).1 =
        ⟨86400 * ((getPeriod .period365Days now).2.dayNumber - 364)⟩) ∧
    (getPeriod .periodYesterday now).2 = ⟨86400 * (now.dayNumber - 1) + 86399⟩ := by
  have hend : timeDate now.year now.month now.day 23 59 59 =
      ⟨86400 * now.dayNumber + 86399⟩ := timeDate_endOfDay now
  have hdn : Time.dayNumber ⟨86400 * now.dayNumber + 86399⟩ = now.dayNumber :=
    dayNumber_mk_add now.dayNumber 86399 (by norm_num) (by norm_num)
  refine ⟨⟨hend, ?_⟩, ⟨hend, ?_⟩, ⟨hend, ?_⟩, ⟨hend, ?_⟩, ⟨hend, ?_⟩, ⟨hend, ?_⟩, ?_⟩
  · show timeDate (now.addDays (-6)).year (now.addDays (-6)).month
      (now.addDays (-6)).day 0 0 0 = _
    have hp2 : (getPeriod timePeriod.period7Days now).2 =
        (⟨86400 * now.dayNumber + 86399⟩ : Time) := hend
    rw [getPeriod_nday_start, hp2, hdn]
    simp only [Time.mk.injEq]
    ring
  · show timeDate (now.addDays (-13)).year (now.addDays (-13)).month
      (now.addDays (-13)).day 0 0 0 = _
    have hp2 : (getPeriod timePeriod.period14Days now).2 =
        (⟨86400 * now.dayNumber + 86399⟩ : Time) := hend
    rw [getPeriod_nday_start, hp2, hdn]
    simp only [Time.mk.injEq]
    ring
  · show timeDate (now.addDays (-29)).year (now.addDays (-29)).month
      (now.addDays (-29)).day 0 0 0 = _
    have hp2 : (getPeriod timePeriod.period30Days now).2 =
        (⟨86400 * now.dayNumber + 86399⟩ : Time) := hend
    rw [getPeriod_nday_start, hp2, hdn]
    simp only [Time.mk.injEq]
    ring
  · show timeDate (now.addDays (-89)).year (now.addDays (-89)).month
      (now.addDays (-89)).day 0 0 0 = _
    have hp2 : (getPeriod timePeriod.period90Days now).2 =
        (⟨86400 * now.dayNumber + 86399⟩ : Time) := hend
    rw [getPeriod_nday_start, hp2, hdn]
    simp only [Time.mk.injEq]
    ring
  · show timeDate (now.addDays (-179)).year (now.addDays (-179)).month
      (now.addDays (-179)).day 0 0 0 = _
    have hp2 : (getPeriod timePeriod.period180Days now).2 =
        (⟨86400 * now.dayNumber + 86399⟩ : Time) := hend
    rw [getPeriod_nday_start, hp2, hdn]
    simp only [Time.mk.injEq]
    ring
  · show timeDate (now.addDays (-364)).year (now.addDays (-364)).month
      (now.addDays (-364)).day 0 0 0 = _
    have hp2 : (getPeriod timePeriod.period365Days now).2 =
        (⟨86400 * now.dayNumber + 86399⟩ : Time) := hend
    rw [getPeriod_nday_start, hp2, hdn]
    simp only [Time.mk.injEq]
    ring
  · show timeDate (now.addDays (-1)).year (now.addDays (-1)).month
      (now.addDays (-1)).day 23 59 59 = _
    rw [timeDate_endOfDay, addDays_dayNumber]
    simp only [Time.mk.injEq]
    ring

/-! ## Claim theorems: Show's hoursDiff (C6) -/

/-- Claim C6 counterexample: for a window of 5400 seconds (1.5 hours) the
orchestrator's `hoursDiff` is `int(1.5) = 1`, not `round(1.5) = 2` — the
conversion truncates toward zero instead of rounding. -/
theorem claim_C6_counterexample :
    ¬ (showHoursDiff ⟨0⟩ ⟨5400⟩ =
        roundTime ((((⟨5400⟩ : Time).secs - (⟨0⟩ : Time).secs : Int) : ℚ) / 3600)) := by
  have h : roundTime ((((⟨5400⟩ : Time).secs - (⟨0⟩ : Time).secs : Int) : ℚ) / 3600) =
      roundDiv ((⟨5400⟩ : Time).secs - (⟨0⟩ : Time).secs) 3600 := by
    rw [roundDiv_eq_roundTime _ _ (by norm_num)]
    norm_num
  rw [h]
  decide

/-- Claim C6, amended: `Stats.Show` computes `hoursDiff` as the hour
difference truncated toward zero (`int(diff.Hours())`); for a window whose
end is not before its start this is the floor of the exact hour quotient,
not the nearest-integer rounding. -/
theorem claim_C6 (startTime endTime : Time) (h : startTime.secs ≤ endTime.secs) :
    showHoursDiff startTime endTime = (endTime.secs - startTime.secs) / 3600 := by
  unfold showHoursDiff
  rw [Int.tdiv_eq_ediv (by omega) (by norm_num)]

theorem claim_C6_witness :
    (⟨0⟩ : Time).secs ≤ (⟨5400⟩ : Time).secs ∧
    showHoursDiff ⟨0⟩ ⟨5400⟩ = ((⟨5400⟩ : Time).secs - (⟨0⟩ : Time).secs) / 3600 :=
  ⟨by decide, claim_C6 ⟨0⟩ ⟨5400⟩ (by decide)⟩

/-! ## Claim theorems: computeAverages (C8) -/

/-- The spec's `numberOfDays` formula: normalise `end` to 23:59:59 of its
calendar day, round the hour difference to `start`, then divide by 24 with
Go integer division. -/
def specNumberOfDays (start endT : Time) : Int :=
  Int.tdiv (roundDiv (86400 * endT.dayNumber + 86399 - start.secs) 3600) hoursInADay

/-- Claim C8: `computeAverages` first normalizes `end` to 23:59:59 of its
calendar day, computes `numberOfDays = round(hours(end - start)) / 24` with
integer division, and — when `numberOfDays ≥ 1` — sets each averages field
to `round(totals.X / numberOfDays)`. -/
theorem claim_C8 (d : Data) (start endT : Time)
    (h : 1 ≤ specNumberOfDays start endT) :
    (computeAverages d start endT).Averages =
      ⟨roundTime ((d.Totals.minutes : ℚ) / ((specNumberOfDays start endT : Int) : ℚ)),
       roundTime ((d.Totals.completed : ℚ) / ((specNumberOfDays start endT : Int) : ℚ)),
       roundTime ((d.Totals.abandoned : ℚ) / ((specNumberOfDays start endT : Int) : ℚ))⟩ := by
  have hpos : (0 : Int) < specNumberOfDays start endT := by omega
  have he : (timeDate endT.year endT.month endT.day 23 59 59).secs - start.secs =
      86400 * endT.dayNumber + 86399 - start.secs := by
    rw [timeDate_endOfDay]
  show (⟨roundDiv d.Totals.minutes _, roundDiv d.Totals.completed _,
      roundDiv d.Totals.abandoned _⟩ : quantity) = _
  rw [he]
  have hn : Int.tdiv (roundDiv (86400 * endT.dayNumber + 86399 - start.secs) 3600)
      hoursInADay = specNumberOfDays start endT := rfl
  rw [hn]
  rw [roundDiv_eq_roundTime _ _ hpos, roundDiv_eq_roundTime _ _ hpos,
    roundDiv_eq_roundTime _ _ hpos]

/-- Concrete data for the C8 witness. -/
def c8Data : Data :=
  ⟨fun _ => ⟨0, 0, 0⟩, fun _ => ⟨0, 0, 0⟩, [], .januaryYear, ⟨10, 3, 1⟩, ⟨0, 0, 0⟩⟩

theorem claim_C8_witness :
    1 ≤ specNumberOfDays ⟨0⟩ ⟨86400⟩ ∧
    (computeAverages c8Data ⟨0⟩ ⟨86400⟩).Averages =
      ⟨roundTime ((c8Data.Totals.minutes : ℚ) / ((specNumberOfDays ⟨0⟩ ⟨86400⟩ : Int) : ℚ)),
       roundTime ((c8Data.Totals.completed : ℚ) / ((specNumberOfDays ⟨0⟩ ⟨86400⟩ : Int) : ℚ)),
       roundTime ((c8Data.Totals.abandoned : ℚ) / ((specNumberOfDays ⟨0⟩ ⟨86400⟩ : Int) : ℚ))⟩ :=
  ⟨by decide, claim_C8 c8Data ⟨0⟩ ⟨86400⟩ (by decide)⟩

/-! ## Claim theorems: in-progress sessions are skipped (C9) -/

/-- Claim C9: a session whose `endTime` is the zero instant contributes
nothing: `computeTotals` over a session list starting with such a session
returns exactly the result of processing the remaining sessions — every
weekday, hour-of-day and history quantity and the totals are left as they
were. -/
theorem claim_C9 (d : Data) (s : session) (sessions : List session)
    (sS sE : Time) (h : s.EndTime.secs = 0) :
    computeTotals d (s :: sessions) sS sE = computeTotals d sessions sS sE := by
  show computeTotals (computeTotalsStep sS sE d s) sessions sS sE = _
  unfold computeTotalsStep
  rw [if_pos h]

/-- Concrete session with unset end time for the C9 witness. -/
def c9Session : session := ⟨⟨3600⟩, ⟨0⟩, true, [⟨⟨3600⟩, ⟨7200⟩⟩]⟩

theorem claim_C9_witness :
    c9Session.EndTime.secs = 0 ∧
    computeTotals c8Data [c9Session] ⟨0⟩ ⟨86399⟩ =
      computeTotals c8Data [] ⟨0⟩ ⟨86399⟩ :=
  ⟨by decide, claim_C9 c8Data c9Session [] ⟨0⟩ ⟨86399⟩ (by decide)⟩

/-! ## Claim theorems: NewStats date parsing (C10) -/

def exLenientDate : String := "2026-1-2 3:04:05 PM"

def exShortDate : String := "2026-1-2"

def exPaddedDate : String := "2026-01-02"

/-- Claim C10: explicit date strings are parsed with the lenient layout
`"2006-1-2 3:4:5 PM"`, so `"2026-1-2 3:04:05 PM"` (single-digit month, day
and hour) is accepted; but the date-only expansion is applied only to
strings of exactly 10 characters, so the valid shorter date-only string
`"2026-1-2"` is rejected with the date-format error instead of being
expanded (while the 10-character `"2026-01-02"` is expanded and accepted). -/
theorem claim_C10 :
    newStatsStart exLenientDate = .ok (timeDate 2026 1 2 15 4 5) ∧
    newStatsStart exShortDate = .error .errParsingDate ∧
    newStatsEnd exShortDate = .error .errParsingDate ∧
    newStatsStart exPaddedDate = .ok (timeDate 2026 1 2 0 0 0) ∧
    newStatsEnd exPaddedDate = .ok (timeDate 2026 1 2 23 59 59) := by
  decide

/-! ## Claim theorems: out-of-window minute-steps (C2) -/

/-- Claim C2: in the minute-by-minute walk, a minute-step whose instant is
strictly before the window start or strictly after the window end leaves the
hour-of-day, weekday and history accumulators (and the seconds counter)
completely unchanged — the loop body is skipped; and in the concrete
boundary scenario of a sub-interval from 23:50 to 00:10 crossing the window
end at midnight (window `[0, 86399]`, sub-interval `[85800, 87000]`), only
the ten in-window minutes are accumulated: 600 seconds under hour 23 and
under day one's label, and nothing under hour 0 or day two's label. -/
theorem claim_C2 :
    (∀ (fmt : KeyFormat) (statsStart statsEnd vEnd : Time) (n : Nat)
        (date : Time) (durationAdded : Bool) (acc : durAcc),
      ¬ vEnd.secs < date.secs →
      (date.secs < statsStart.secs ∨ statsEnd.secs < date.secs) →
      walkTimeline fmt statsStart statsEnd vEnd (n + 1) date durationAdded acc =
        walkTimeline fmt statsStart statsEnd vEnd n ⟨date.secs + 60⟩ durationAdded acc) ∧
    (sessionAcc .januaryDayYear ⟨0⟩ ⟨86399⟩ [⟨⟨85800⟩, ⟨87000⟩⟩]).hourly 23 = 600 ∧
    (sessionAcc .januaryDayYear ⟨0⟩ ⟨86399⟩ [⟨⟨85800⟩, ⟨87000⟩⟩]).hourly 0 = 0 ∧
    (sessionAcc .januaryDayYear ⟨0⟩ ⟨86399⟩ [⟨⟨85800⟩, ⟨87000⟩⟩]).daily
      (formatTime .januaryDayYear ⟨85800⟩) = 600 ∧
    (sessionAcc .januaryDayYear ⟨0⟩ ⟨86399⟩ [⟨⟨85800⟩, ⟨87000⟩⟩]).daily
      (formatTime .januaryDayYear ⟨86400⟩) = 0 := by
  refine ⟨?_, by decide, by decide, by decide, by decide⟩
  intro fmt statsStart statsEnd vEnd n date durationAdded acc h1 h2
  show (if vEnd.secs < date.secs then acc
    else if date.secs < statsStart.secs ∨ statsEnd.secs < date.secs then
      walkTimeline fmt statsStart statsEnd vEnd n ⟨date.secs + 60⟩ durationAdded acc
    else _) = _
  rw [if_neg h1, if_pos h2]

theorem claim_C2_witness :
    (¬ (⟨87000⟩ : Time).secs < (⟨86400⟩ : Time).secs) ∧
    ((⟨86400⟩ : Time).secs < (⟨0⟩ : Time).secs ∨
      (⟨86399⟩ : Time).secs < (⟨86400⟩ : Time).secs) ∧
    walkTimeline .januaryDayYear ⟨0⟩ ⟨86399⟩ ⟨87000⟩ 10 ⟨86400⟩ true durAcc.zero =
      walkTimeline .januaryDayYear ⟨0⟩ ⟨86399⟩ ⟨87000⟩ 9 ⟨86460⟩ true durAcc.zero :=
  ⟨by decide, Or.inr (by decide),
    claim_C2.1 .januaryDayYear ⟨0⟩ ⟨86399⟩ ⟨87000⟩ 9 ⟨86400⟩ true durAcc.zero
      (by decide) (Or.inr (by decide))⟩

/-! ## Helper lemmas for the totals/history invariant (C1) -/

theorem Time.secs_mk (x : Int) : (Time.mk x).secs = x := rfl

/-- Sum of an accumulator map over a list of keys. -/
def sumOver (keys : List Label) (f : Label → Int) : Int := (keys.map f).sum

/-- The key list of a history association list. -/
def histKeys (h : List (Label × quantity)) : List Label := h.map Prod.fst

/-- Total minutes stored in a history association list. -/
def histMinutes (h : List (Label × quantity)) : Int :=
  (h.map fun e => e.2.minutes).sum

theorem bump_zero {α : Type} [DecidableEq α] (f : α → Int) (k : α) :
    bump f k 0 = f := by
  funext i
  unfold bump
  split_ifs <;> omega

theorem sumOver_bump_not_mem (keys : List Label) (f : Label → Int) (k : Label)
    (x : Int) (hk : k ∉ keys) : sumOver keys (bump f k x) = sumOver keys f := by
  induction keys with
  | nil => rfl
  | cons a L ih =>
      have hka : a ≠ k := fun h => hk (by rw [h]; exact List.mem_cons_self k L)
      have hkL : k ∉ L := fun h => hk (List.mem_cons_of_mem a h)
      show bump f k x a + sumOver L (bump f k x) = f a + sumOver L f
      rw [ih hkL]
      unfold bump
      rw [if_neg hka]

theorem sumOver_bump (keys : List Label) (hnd : keys.Nodup) (f : Label → Int)
    (k : Label) (x : Int) (hk : k ∈ keys) :
    sumOver keys (bump f k x) = sumOver keys f + x := by
  induction keys with
  | nil => cases hk
  | cons a L ih =>
      have hnd2 : L.Nodup := (List.nodup_cons.mp hnd).2
      have hna : a ∉ L := (List.nodup_cons.mp hnd).1
      show bump f k x a + sumOver L (bump f k x) = f a + sumOver L f + x
      rcases List.mem_cons.mp hk with hak | hkL
      · have hkn : k ∉ L := by rw [← hak] at hna; exact hna
        rw [sumOver_bump_not_mem L f k x hkn]
        unfold bump
        rw [if_pos hak.symm]
        ring
      · have hka : a ≠ k := by
          intro h
          rw [h] at hna
          exact hna hkL
        rw [ih hnd2 hkL]
        unfold bump
        rw [if_neg hka]
        ring

theorem stepCount_succ60 (a b : Time) (h : a.secs ≤ b.secs) :
    stepCount 60 a b = stepCount 60 ⟨a.secs + 60⟩ b + 1 := by
  unfold stepCount
  simp only [Time.secs_mk]
  split_ifs <;> omega

theorem stepCount_pos_ne_zero (a b : Time) (h : a.secs ≤ b.secs) (m : Nat)
    (hn : m = stepCount 60 a b) : m ≠ 0 := by
  unfold stepCount at hn
  rw [if_neg (by omega)] at hn
  omega

theorem minuteSteps_cons (a b : Time) (h : a.secs ≤ b.secs) :
    minuteSteps a b = a :: minuteSteps ⟨a.secs + 60⟩ b := by
  unfold minuteSteps
  rw [stepCount_succ60 a b h]
  show (if b.secs < a.secs then [] else a :: minuteStepsAux b _ ⟨a.secs + 60⟩) = _
  rw [if_neg (by omega)]

/-- One non-skipped step of the walk, written out. -/
theorem walkTimeline_step (fmt : KeyFormat) (sS sE vEnd : Time) (n : Nat)
    (date : Time) (dA : Bool) (acc : durAcc)
    (h1 : ¬ vEnd.secs < date.secs)
    (h2 : ¬ (date.secs < sS.secs ∨ sE.secs < date.secs)) :
    walkTimeline fmt sS sE vEnd (n + 1) date dA acc =
      walkTimeline fmt sS sE vEnd n ⟨date.secs + 60⟩ true
        { hourly := bump acc.hourly date.hour
            ((if vEnd.secs < date.secs + 60 then vEnd else ⟨date.secs + 60⟩).secs
              - date.secs)
          weekday := bump acc.weekday date.weekday
            ((if vEnd.secs < date.secs + 60 then vEnd else ⟨date.secs + 60⟩).secs
              - date.secs)
          daily := bump acc.daily (formatTime fmt date)
            ((if vEnd.secs < date.secs + 60 then vEnd else ⟨date.secs + 60⟩).secs
              - date.secs)
          seconds :=
            if dA then acc.seconds else acc.seconds + (vEnd.secs - date.secs) } := by
  show (if vEnd.secs < date.secs then acc
    else if date.secs < sS.secs ∨ sE.secs < date.secs then
      walkTimeline fmt sS sE vEnd n ⟨date.secs + 60⟩ dA acc
    else _) = _
  rw [if_neg h1, if_neg h2]

/-- A skipped (out-of-window) step of the walk. -/
theorem walkTimeline_skip (fmt : KeyFormat) (sS sE vEnd : Time) (n : Nat)
    (date : Time) (dA : Bool) (acc : durAcc)
    (h1 : ¬ vEnd.secs < date.secs)
    (h2 : date.secs < sS.secs ∨ sE.secs < date.secs) :
    walkTimeline fmt sS sE vEnd (n + 1) date dA acc =
      walkTimeline fmt sS sE vEnd n ⟨date.secs + 60⟩ dA acc := by
  show (if vEnd.secs < date.secs then acc
    else if date.secs < sS.secs ∨ sE.secs < date.secs then
      walkTimeline fmt sS sE vEnd n ⟨date.secs + 60⟩ dA acc
    else _) = _
  rw [if_neg h1, if_pos h2]

/-- Main walk lemma: for a sub-interval lying entirely inside the window and
aligned to whole minutes, walking from `date` adds exactly the remaining
seconds `vEnd - date` to the daily mass on the (nodup) key list, adds the
same amount to `seconds` (when `durationAdded` is still false), and keeps
every daily entry divisible by 60. -/
theorem walk_main (fmt : KeyFormat) (sS sE vEnd : Time) (keys : List Label)
    (hnd : keys.Nodup) (hE : vEnd.secs ≤ sE.secs) :
    ∀ (n : Nat) (date : Time) (dA : Bool) (acc : durAcc),
      n = stepCount 60 date vEnd →
      sS.secs ≤ date.secs → date.secs ≤ vEnd.secs →
      (60 ∣ vEnd.secs - date.secs) →
      (∀ t ∈ minuteSteps date vEnd, formatTime fmt t ∈ keys) →
      sumOver keys (walkTimeline fmt sS sE vEnd n date dA acc).daily
          = sumOver keys acc.daily + (vEnd.secs - date.secs) ∧
        (walkTimeline fmt sS sE vEnd n date dA acc).seconds
          = acc.seconds + (if dA then 0 else vEnd.secs - date.secs) ∧
        (∀ k, 60 ∣ acc.daily k → 60 ∣ (walkTimeline fmt sS sE vEnd n date dA acc).daily k) := by
  intro n
  induction n with
  | zero =>
      intro date dA acc hn hs1 hs2 hdvd hlbl
      exact absurd rfl (stepCount_pos_ne_zero date vEnd hs2 0 hn)
  | succ m ih =>
      intro date dA acc hn hs1 hs2 hdvd hlbl
      have h1 : ¬ vEnd.secs < date.secs := by omega
      have h2 : ¬ (date.secs < sS.secs ∨ sE.secs < date.secs) := by
        push_neg
        omega
      have hlblc : formatTime fmt date ∈ keys := by
        apply hlbl
        rw [minuteSteps_cons date vEnd hs2]
        exact List.mem_cons_self _ _
      have hlblt : ∀ t ∈ minuteSteps ⟨date.secs + 60⟩ vEnd, formatTime fmt t ∈ keys := by
        intro t ht
        apply hlbl
        rw [minuteSteps_cons date vEnd hs2]
        exact List.mem_cons_of_mem _ ht
      rw [walkTimeline_step fmt sS sE vEnd m date dA acc h1 h2]
      by_cases hlast : vEnd.secs < date.secs + 60
      · have heq : vEnd.secs = date.secs := by omega
        have hm : m = 0 := by
          unfold stepCount at hn
          rw [if_neg h1] at hn
          omega
        subst hm
        rw [if_pos hlast]
        refine ⟨?_, ?_, ?_⟩
        · show sumOver keys (bump acc.daily (formatTime fmt date)
              (vEnd.secs - date.secs)) = sumOver keys acc.daily + (vEnd.secs - date.secs)
          rw [heq]
          simp only [sub_self, bump_zero, add_zero]
        · show (if dA then acc.seconds else acc.seconds + (vEnd.secs - date.secs)) =
            acc.seconds + (if dA then 0 else vEnd.secs - date.secs)
          rw [heq]
          cases dA <;> simp
        · intro k hk
          show 60 ∣ bump acc.daily (formatTime fmt date) (vEnd.secs - date.secs) k
          rw [heq]
          simp only [sub_self, bump_zero]
          exact hk
      · rw [if_neg hlast]
        have hm : m = stepCount 60 ⟨date.secs + 60⟩ vEnd := by
          rw [stepCount_succ60 date vEnd hs2] at hn
          omega
        have hstep : (Time.mk (date.secs + 60)).secs - date.secs = 60 := by
          simp only [Time.secs_mk]
          ring
        rw [hstep]
        obtain ⟨ihd, ihs, ihdvd⟩ := ih ⟨date.secs + 60⟩ true
          { hourly := bump acc.hourly date.hour 60
            weekday := bump acc.weekday date.weekday 60
            daily := bump acc.daily (formatTime fmt date) 60
            seconds := if dA then acc.seconds else acc.seconds + (vEnd.secs - date.secs) }
          hm (by simp only [Time.secs_mk]; omega) (by simp only [Time.secs_mk]; omega)
          (by simp only [Time.secs_mk]; omega) hlblt
        refine ⟨?_, ?_, ?_⟩
        · rw [ihd]
          show sumOver keys (bump acc.daily (formatTime fmt date) 60) + _ = _
          rw [sumOver_bump keys hnd acc.daily (formatTime fmt date) 60 hlblc]
          simp only [Time.secs_mk]
          ring
        · rw [ihs]
          show (if dA then acc.seconds else acc.seconds + (vEnd.secs - date.secs)) + _ = _
          cases dA <;> simp
        · intro k hk
          apply ihdvd
          show 60 ∣ bump acc.daily (formatTime fmt date) 60 k
          unfold bump
          split_ifs
          · exact Int.dvd_add hk ⟨1, by ring⟩
          · exact hk

theorem sumOver_zero (keys : List Label) : sumOver keys (fun _ => 0) = 0 := by
  induction keys with
  | nil => rfl
  | cons a L ih =>
      show (0 : Int) + sumOver L (fun _ => 0) = 0
      rw [ih]
      rfl

theorem stepCount_zero_of_lt (a b : Time) (h : b.secs < a.secs) :
    stepCount 60 a b = 0 := by
  unfold stepCount
  rw [if_pos h]

/-- Walking all sub-intervals of an in-window, minute-aligned timeline
keeps the invariant "daily mass on the keys = seconds", all daily entries
divisible by 60, and seconds divisible by 60. -/
theorem sessionFold_inv (fmt : KeyFormat) (sS sE : Time) (keys : List Label)
    (hnd : keys.Nodup) :
    ∀ (timeline : List sessionTimeline) (acc : durAcc),
      (∀ v ∈ timeline, sS.secs ≤ v.StartTime.secs ∧ v.EndTime.secs ≤ sE.secs ∧
        60 ∣ v.StartTime.secs ∧ 60 ∣ v.EndTime.secs ∧
        ∀ t ∈ minuteSteps v.StartTime v.EndTime, formatTime fmt t ∈ keys) →
      sumOver keys acc.daily = acc.seconds → (∀ k, 60 ∣ acc.daily k) →
      60 ∣ acc.seconds →
      (sumOver keys (timeline.foldl
          (fun acc v => walkTimeline fmt sS sE v.EndTime
            (stepCount 60 v.StartTime v.EndTime) v.StartTime false acc)
          acc).daily
        = (timeline.foldl
            (fun acc v => walkTimeline fmt sS sE v.EndTime
              (stepCount 60 v.StartTime v.EndTime) v.StartTime false acc)
            acc).seconds) ∧
      (∀ k, 60 ∣ (timeline.foldl
          (fun acc v => walkTimeline fmt sS sE v.EndTime
            (stepCount 60 v.StartTime v.EndTime) v.StartTime false acc)
          acc).daily k) ∧
      60 ∣ (timeline.foldl
          (fun acc v => walkTimeline fmt sS sE v.EndTime
            (stepCount 60 v.StartTime v.EndTime) v.StartTime false acc)
          acc).seconds := by
  intro timeline
  induction timeline with
  | nil => exact fun acc _ h1 h2 h3 => ⟨h1, h2, h3⟩
  | cons v rest ih =>
      intro acc hok hsum hdvd hsecs
      obtain ⟨hv1, hv2, hv3, hv4, hv5⟩ := hok v (List.mem_cons_self v rest)
      have hokr : ∀ w ∈ rest, sS.secs ≤ w.StartTime.secs ∧
          w.EndTime.secs ≤ sE.secs ∧ 60 ∣ w.StartTime.secs ∧
          60 ∣ w.EndTime.secs ∧
          ∀ t ∈ minuteSteps w.StartTime w.EndTime, formatTime fmt t ∈ keys :=
        fun w hw => hok w (List.mem_cons_of_mem v hw)
      rw [List.foldl_cons]
      by_cases hvlt : v.EndTime.secs < v.StartTime.secs
      · rw [stepCount_zero_of_lt v.StartTime v.EndTime hvlt]
        exact ih (walkTimeline fmt sS sE v.EndTime 0 v.StartTime false acc)
          hokr hsum hdvd hsecs
      · have hle : v.StartTime.secs ≤ v.EndTime.secs := by omega
        obtain ⟨hd, hs, hdv⟩ := walk_main fmt sS sE v.EndTime keys hnd hv2
          (stepCount 60 v.StartTime v.EndTime) v.StartTime false acc rfl hv1 hle
          (by omega) hv5
        apply ih
        · exact hokr
        · rw [hd, hs, hsum]
          simp
        · exact fun k => hdv k (hdvd k)
        · rw [hs]
          simp only [Bool.false_eq_true, if_false]
          exact Int.dvd_add hsecs (by omega)

/-- The invariant facts about a full session accumulator. -/
theorem sessionAcc_main (fmt : KeyFormat) (sS sE : Time) (keys : List Label)
    (hnd : keys.Nodup) (timeline : List sessionTimeline)
    (hok : ∀ v ∈ timeline, sS.secs ≤ v.StartTime.secs ∧
      v.EndTime.secs ≤ sE.secs ∧ 60 ∣ v.StartTime.secs ∧ 60 ∣ v.EndTime.secs ∧
      ∀ t ∈ minuteSteps v.StartTime v.EndTime, formatTime fmt t ∈ keys) :
    sumOver keys (sessionAcc fmt sS sE timeline).daily
        = (sessionAcc fmt sS sE timeline).seconds ∧
      (∀ k, 60 ∣ (sessionAcc fmt sS sE timeline).daily k) ∧
      60 ∣ (sessionAcc fmt sS sE timeline).seconds := by
  exact sessionFold_inv fmt sS sE keys hnd timeline durAcc.zero hok
    (sumOver_zero keys) (fun _ => ⟨0, rfl⟩) ⟨0, rfl⟩

/-! ## History flush lemmas -/

theorem histMinutes_map_add (h : List (Label × quantity)) (g : Label → Int) :
    histMinutes (h.map fun e => (e.1, { e.2 with minutes := e.2.minutes + g e.1 }))
      = histMinutes h + sumOver (histKeys h) g := by
  induction h with
  | nil => rfl
  | cons e t ih =>
      show (e.2.minutes + g e.1) + histMinutes (t.map _)
        = (e.2.minutes + histMinutes t) + (g e.1 + sumOver (histKeys t) g)
      rw [ih]
      ring

theorem histKeys_map_snd (h : List (Label × quantity))
    (f : Label × quantity → quantity) :
    histKeys (h.map fun e => (e.1, f e)) = histKeys h := by
  induction h with
  | nil => rfl
  | cons e t ih =>
      show e.1 :: histKeys (t.map _) = e.1 :: histKeys t
      rw [ih]

theorem histKeys_histUpdate (h : List (Label × quantity)) (k : Label)
    (g : quantity → quantity) : histKeys (histUpdate h k g) = histKeys h := by
  induction h with
  | nil => rfl
  | cons e t ih =>
      show ((if e.1 = k then (e.1, g e.2) else e).1) :: histKeys (histUpdate t k g)
        = e.1 :: histKeys t
      rw [ih]
      split_ifs <;> rfl

theorem histMinutes_histUpdate (h : List (Label × quantity)) (k : Label)
    (g : quantity → quantity) (hg : ∀ q, (g q).minutes = q.minutes) :
    histMinutes (histUpdate h k g) = histMinutes h := by
  induction h with
  | nil => rfl
  | cons e t ih =>
      show (if e.1 = k then (e.1, g e.2) else e).2.minutes
          + histMinutes (histUpdate t k g)
        = e.2.minutes + histMinutes t
      rw [ih]
      split_ifs
      · rw [hg]
      · rfl

theorem sumOver_roundDiv (keys : List Label) (f : Label → Int)
    (hf : ∀ k, 60 ∣ f k) :
    60 * sumOver keys (fun k => roundDiv (f k) 60) = sumOver keys f := by
  induction keys with
  | nil => rfl
  | cons a L ih =>
      obtain ⟨m, hm⟩ := hf a
      show 60 * (roundDiv (f a) 60 + sumOver L (fun k => roundDiv (f k) 60))
        = f a + sumOver L f
      rw [mul_add, ih, hm, roundDiv_sixty]

/-! ## initData invariants -/

theorem histKeys_histSet_mem (h : List (Label × quantity)) (k : Label)
    (q : quantity) (x : Label) :
    x ∈ histKeys (histSet h k q) ↔ x ∈ histKeys h ∨ x = k := by
  induction h with
  | nil =>
      show x ∈ [k] ↔ x ∈ ([] : List Label) ∨ x = k
      simp
  | cons e t ih =>
      show x ∈ histKeys (if e.1 = k then (k, q) :: t else e :: histSet t k q)
        ↔ x ∈ e.1 :: histKeys t ∨ x = k
      split_ifs with hek
      · show x ∈ k :: histKeys t ↔ _
        rw [← hek]
        simp only [List.mem_cons]
        constructor
        · rintro (h | h)
          · exact Or.inr h
          · exact Or.inl (Or.inr h)
        · rintro ((h | h) | h)
          · exact Or.inl h
          · exact Or.inr h
          · rw [hek] at h ⊢
            exact Or.inl h
      · show x ∈ e.1 :: histKeys (histSet t k q) ↔ _
        simp only [List.mem_cons, ih]
        tauto

theorem histKeys_histSet_nodup (h : List (Label × quantity)) (k : Label)
    (q : quantity) (hnd : (histKeys h).Nodup) :
    (histKeys (histSet h k q)).Nodup := by
  induction h with
  | nil => exact List.nodup_singleton k
  | cons e t ih =>
      have hnd2 : (histKeys t).Nodup := (List.nodup_cons.mp hnd).2
      have hna : e.1 ∉ histKeys t := (List.nodup_cons.mp hnd).1
      show (histKeys (if e.1 = k then (k, q) :: t else e :: histSet t k q)).Nodup
      split_ifs with hek
      · show (k :: histKeys t).Nodup
        rw [List.nodup_cons]
        rw [hek] at hna
        exact ⟨hna, hnd2⟩
      · show (e.1 :: histKeys (histSet t k q)).Nodup
        rw [List.nodup_cons]
        refine ⟨?_, ih hnd2⟩
        rw [histKeys_histSet_mem]
        rintro (h | h)
        · exact hna h
        · exact hek h

theorem histSet_cons (f : Label × quantity) (t : List (Label × quantity))
    (k : Label) (q : quantity) :
    histSet (f :: t) k q = if f.1 = k then (k, q) :: t else f :: histSet t k q := rfl

theorem histSet_all_zero (h : List (Label × quantity)) (k : Label)
    (hz : ∀ e ∈ h, e.2 = (⟨0, 0, 0⟩ : quantity)) :
    ∀ e ∈ histSet h k ⟨0, 0, 0⟩, e.2 = (⟨0, 0, 0⟩ : quantity) := by
  induction h with
  | nil =>
      intro e he
      rw [show histSet [] k ⟨0, 0, 0⟩ = [(k, ⟨0, 0, 0⟩)] from rfl,
        List.mem_singleton] at he
      rw [he]
  | cons f t ih =>
      intro e he
      rw [histSet_cons] at he
      by_cases hek : f.1 = k
      · rw [if_pos hek] at he
        rcases List.mem_cons.mp he with he | he
        · rw [he]
        · exact hz e (List.mem_cons_of_mem f he)
      · rw [if_neg hek] at he
        rcases List.mem_cons.mp he with he | he
        · rw [he]
          exact hz f (List.mem_cons_self f t)
        · exact ih (fun e' he' => hz e' (List.mem_cons_of_mem f he')) e he

theorem initHistLoop_nodup (fmt : KeyFormat) (endT : Time) :
    ∀ (fuel : Nat) (date : Time) (h : List (Label × quantity)),
      (histKeys h).Nodup → (histKeys (initHistLoop fmt endT fuel date h)).Nodup := by
  intro fuel
  induction fuel with
  | zero => exact fun date h hnd => hnd
  | succ n ih =>
      intro date h hnd
      show (histKeys (if endT.secs < date.secs then h
        else initHistLoop fmt endT n ⟨date.secs + 86400⟩
          (histSet h (formatTime fmt date) ⟨0, 0, 0⟩))).Nodup
      split_ifs
      · exact hnd
      · exact ih _ _ (histKeys_histSet_nodup h (formatTime fmt date) ⟨0, 0, 0⟩ hnd)

theorem initHistLoop_all_zero (fmt : KeyFormat) (endT : Time) :
    ∀ (fuel : Nat) (date : Time) (h : List (Label × quantity)),
      (∀ e ∈ h, e.2 = (⟨0, 0, 0⟩ : quantity)) →
      ∀ e ∈ initHistLoop fmt endT fuel date h, e.2 = (⟨0, 0, 0⟩ : quantity) := by
  intro fuel
  induction fuel with
  | zero => exact fun date h hz => hz
  | succ n ih =>
      intro date h hz
      show ∀ e ∈ (if endT.secs < date.secs then h
        else initHistLoop fmt endT n ⟨date.secs + 86400⟩
          (histSet h (formatTime fmt date) ⟨0, 0, 0⟩)), e.2 = _
      split_ifs
      · exact hz
      · exact ih _ _ (histSet_all_zero h (formatTime fmt date) hz)

theorem histMinutes_of_all_zero (h : List (Label × quantity))
    (hz : ∀ e ∈ h, e.2 = (⟨0, 0, 0⟩ : quantity)) : histMinutes h = 0 := by
  induction h with
  | nil => rfl
  | cons e t ih =>
      show e.2.minutes + histMinutes t = 0
      rw [hz e (List.mem_cons_self e t),
        ih (fun e' he' => hz e' (List.mem_cons_of_mem e he'))]
      rfl

theorem initData_nodup (start endT : Time) (hoursDiff : Int) :
    (histKeys (initData start endT hoursDiff).History).Nodup :=
  initHistLoop_nodup _ endT _ start [] List.nodup_nil

theorem initData_histMinutes (start endT : Time) (hoursDiff : Int) :
    histMinutes (initData start endT hoursDiff).History = 0 :=
  histMinutes_of_all_zero _
    (initHistLoop_all_zero _ endT _ start [] (fun e he => absurd he (List.not_mem_nil e)))

/-! ## The per-session invariant -/

/-- Processing one counted, in-window, minute-aligned session adds the same
number of minutes to `Totals.minutes` and to the history minutes (and keeps
the history keys), so the difference of the two is invariant. -/
theorem step_invariant (sS sE : Time) (d : Data) (s : session)
    (hnd : (histKeys d.History).Nodup)
    (hwin : ∀ v ∈ s.Timeline, sS.secs ≤ v.StartTime.secs ∧
      v.EndTime.secs ≤ sE.secs ∧ 60 ∣ v.StartTime.secs ∧ 60 ∣ v.EndTime.secs ∧
      ∀ t ∈ minuteSteps v.StartTime v.EndTime,
        formatTime d.HistoryKeyFormat t ∈ histKeys d.History) :
    (computeTotalsStep sS sE d s).Totals.minutes
        - histMinutes (computeTotalsStep sS sE d s).History
      = d.Totals.minutes - histMinutes d.History ∧
    histKeys (computeTotalsStep sS sE d s).History = histKeys d.History := by
  by_cases hz : s.EndTime.secs = 0
  · have hd : computeTotalsStep sS sE d s = d := by
      unfold computeTotalsStep
      rw [if_pos hz]
    rw [hd]
    exact ⟨rfl, rfl⟩
  · have hd : computeTotalsStep sS sE d s = computeTotalsBody sS sE d s := by
      unfold computeTotalsStep
      rw [if_neg hz]
    rw [hd]
    obtain ⟨hsum, hdvd, hsecs⟩ := sessionAcc_main d.HistoryKeyFormat sS sE
      (histKeys d.History) hnd s.Timeline hwin
    obtain ⟨m, hm⟩ := hsecs
    have hdur : roundDiv (sessionAcc d.HistoryKeyFormat sS sE s.Timeline).seconds
        minutesInAnHour = m := by
      unfold minutesInAnHour
      rw [hm, roundDiv_sixty]
    have hsums : sumOver (histKeys d.History)
        (fun k => roundDiv ((sessionAcc d.HistoryKeyFormat sS sE s.Timeline).daily k)
          minutesInAnHour) = m := by
      have h60 := sumOver_roundDiv (histKeys d.History)
        (sessionAcc d.HistoryKeyFormat sS sE s.Timeline).daily hdvd
      unfold minutesInAnHour
      rw [hsum, hm] at h60
      omega
    have hcalc : (calculateSessionDuration d s sS sE).1.History = d.History.map (fun e => (e.1, { e.2 with minutes := e.2.minutes + roundDiv ((sessionAcc d.HistoryKeyFormat sS sE s.Timeline).daily e.1) minutesInAnHour })) := rfl
    have hflushMin : histMinutes ((calculateSessionDuration d s sS sE).1.History)
        = histMinutes d.History + m := by
      rw [hcalc, histMinutes_map_add d.History
        (fun k => roundDiv ((sessionAcc d.HistoryKeyFormat sS sE s.Timeline).daily k)
          minutesInAnHour), hsums]
    have hflushKeys : histKeys ((calculateSessionDuration d s sS sE).1.History)
        = histKeys d.History := by
      rw [hcalc]
      exact histKeys_map_snd d.History _
    cases hc : s.Completed with
    | true =>
        have hb : computeTotalsBody sS sE d s = { (calculateSessionDuration d s sS sE).1 with Weekday := incCompleted (calculateSessionDuration d s sS sE).1.Weekday s.StartTime.weekday, HourofDay := incCompleted (calculateSessionDuration d s sS sE).1.HourofDay s.StartTime.hour, History := histUpdate (calculateSessionDuration d s sS sE).1.History (formatTime (calculateSessionDuration d s sS sE).1.HistoryKeyFormat s.StartTime) (fun q => { q with completed := q.completed + 1 }), Totals := { (calculateSessionDuration d s sS sE).1.Totals with completed := (calculateSessionDuration d s sS sE).1.Totals.completed + 1, minutes := (calculateSessionDuration d s sS sE).1.Totals.minutes + roundDiv (calculateSessionDuration d s sS sE).2 minutesInAnHour } } := by
          unfold computeTotalsBody
          rw [hc]
          rfl
        rw [hb]
        constructor
        · show ((calculateSessionDuration d s sS sE).1.Totals.minutes +
              roundDiv (calculateSessionDuration d s sS sE).2 minutesInAnHour)
            - histMinutes (histUpdate ((calculateSessionDuration d s sS sE).1.History)
              (formatTime (calculateSessionDuration d s sS sE).1.HistoryKeyFormat s.StartTime)
              (fun q => { q with completed := q.completed + 1 })) = _
          rw [histMinutes_histUpdate ((calculateSessionDuration d s sS sE).1.History)
            (formatTime (calculateSessionDuration d s sS sE).1.HistoryKeyFormat s.StartTime)
            (fun q => { q with completed := q.completed + 1 }) (fun q => rfl), hflushMin]
          have hdur2 : roundDiv (calculateSessionDuration d s sS sE).2 minutesInAnHour = m := hdur
          rw [hdur2]
          show d.Totals.minutes + m - (histMinutes d.History + m) = _
          ring
        · show histKeys (histUpdate ((calculateSessionDuration d s sS sE).1.History)
              (formatTime (calculateSessionDuration d s sS sE).1.HistoryKeyFormat s.StartTime)
              (fun q => { q with completed := q.completed + 1 })) = _
          rw [histKeys_histUpdate, hflushKeys]
    | false =>
        have hb : computeTotalsBody sS sE d s = { (calculateSessionDuration d s sS sE).1 with Weekday := incAbandoned (calculateSessionDuration d s sS sE).1.Weekday s.StartTime.weekday, HourofDay := incAbandoned (calculateSessionDuration d s sS sE).1.HourofDay s.StartTime.hour, History := histUpdate (calculateSessionDuration d s sS sE).1.History (formatTime (calculateSessionDuration d s sS sE).1.HistoryKeyFormat s.StartTime) (fun q => { q with abandoned := q.abandoned + 1 }), Totals := { (calculateSessionDuration d s sS sE).1.Totals with abandoned := (calculateSessionDuration d s sS sE).1.Totals.abandoned + 1, minutes := (calculateSessionDuration d s sS sE).1.Totals.minutes + roundDiv (calculateSessionDuration d s sS sE).2 minutesInAnHour } } := by
          unfold computeTotalsBody
          rw [hc]
          rfl
        rw [hb]
        constructor
        · show ((calculateSessionDuration d s sS sE).1.Totals.minutes +
              roundDiv (calculateSessionDuration d s sS sE).2 minutesInAnHour)
            - histMinutes (histUpdate ((calculateSessionDuration d s sS sE).1.History)
              (formatTime (calculateSessionDuration d s sS sE).1.HistoryKeyFormat s.StartTime)
              (fun q => { q with abandoned := q.abandoned + 1 })) = _
          rw [histMinutes_histUpdate ((calculateSessionDuration d s sS sE).1.History)
            (formatTime (calculateSessionDuration d s sS sE).1.HistoryKeyFormat s.StartTime)
            (fun q => { q with abandoned := q.abandoned + 1 }) (fun q => rfl), hflushMin]
          have hdur2 : roundDiv (calculateSessionDuration d s sS sE).2 minutesInAnHour = m := hdur
          rw [hdur2]
          show d.Totals.minutes + m - (histMinutes d.History + m) = _
          ring
        · show histKeys (histUpdate ((calculateSessionDuration d s sS sE).1.History)
              (formatTime (calculateSessionDuration d s sS sE).1.HistoryKeyFormat s.StartTime)
              (fun q => { q with abandoned := q.abandoned + 1 })) = _
          rw [histKeys_histUpdate, hflushKeys]

/-- The totals/history invariant over the whole session loop. -/
theorem computeTotals_invariant (sS sE : Time) :
    ∀ (sessions : List session) (d : Data),
      (histKeys d.History).Nodup →
      (∀ s ∈ sessions, s.EndTime.secs ≠ 0 →
        ∀ v ∈ s.Timeline, sS.secs ≤ v.StartTime.secs ∧
          v.EndTime.secs ≤ sE.secs ∧ 60 ∣ v.StartTime.secs ∧
          60 ∣ v.EndTime.secs ∧
          ∀ t ∈ minuteSteps v.StartTime v.EndTime,
            formatTime d.HistoryKeyFormat t ∈ histKeys d.History) →
      (computeTotals d sessions sS sE).Totals.minutes
          - histMinutes (computeTotals d sessions sS sE).History
        = d.Totals.minutes - histMinutes d.History := by
  intro sessions
  induction sessions with
  | nil => exact fun d _ _ => rfl
  | cons s rest ih =>
      intro d hnd hok
      show (computeTotals (computeTotalsStep sS sE d s) rest sS sE).Totals.minutes
          - histMinutes (computeTotals (computeTotalsStep sS sE d s) rest sS sE).History
        = _
      by_cases hz : s.EndTime.secs = 0
      · have hstep : computeTotalsStep sS sE d s = d := by
          unfold computeTotalsStep
          rw [if_pos hz]
        rw [hstep]
        exact ih d hnd (fun s' hs' => hok s' (List.mem_cons_of_mem s hs'))
      · obtain ⟨hdiff, hkeys⟩ := step_invariant sS sE d s hnd
          (hok s (List.mem_cons_self s rest) hz)
        have hfmt := computeTotalsStep_keyFormat sS sE d s
        have hnd2 : (histKeys (computeTotalsStep sS sE d s).History).Nodup := by
          rw [hkeys]
          exact hnd
        have hok2 : ∀ s' ∈ rest, s'.EndTime.secs ≠ 0 →
            ∀ v ∈ s'.Timeline, sS.secs ≤ v.StartTime.secs ∧
              v.EndTime.secs ≤ sE.secs ∧ 60 ∣ v.StartTime.secs ∧
              60 ∣ v.EndTime.secs ∧
              ∀ t ∈ minuteSteps v.StartTime v.EndTime,
                formatTime (computeTotalsStep sS sE d s).HistoryKeyFormat t
                  ∈ histKeys (computeTotalsStep sS sE d s).History := by
          rw [hkeys, hfmt]
          exact fun s' hs' => hok s' (List.mem_cons_of_mem s hs')
        rw [ih (computeTotalsStep sS sE d s) hnd2 hok2, hdiff]

/-! ## Out-of-window sub-intervals contribute no minutes -/

theorem walk_skip_all (fmt : KeyFormat) (sS sE vEnd : Time) :
    ∀ (n : Nat) (date : Time) (dA : Bool) (acc : durAcc),
      n = stepCount 60 date vEnd →
      (∀ t ∈ minuteSteps date vEnd, t.secs < sS.secs ∨ sE.secs < t.secs) →
      walkTimeline fmt sS sE vEnd n date dA acc = acc := by
  intro n
  induction n with
  | zero => exact fun date dA acc _ _ => rfl
  | succ m ih =>
      intro date dA acc hn hout
      by_cases h1 : vEnd.secs < date.secs
      · show (if vEnd.secs < date.secs then acc else _) = acc
        rw [if_pos h1]
      · have hle : date.secs ≤ vEnd.secs := by omega
        have hd : date.secs < sS.secs ∨ sE.secs < date.secs := by
          apply hout
          rw [minuteSteps_cons date vEnd hle]
          exact List.mem_cons_self _ _
        rw [walkTimeline_skip fmt sS sE vEnd m date dA acc h1 hd]
        apply ih
        · rw [stepCount_succ60 date vEnd hle] at hn
          omega
        · intro t ht
          apply hout
          rw [minuteSteps_cons date vEnd hle]
          exact List.mem_cons_of_mem _ ht

theorem sessionAcc_skip (fmt : KeyFormat) (sS sE : Time)
    (timeline : List sessionTimeline)
    (hout : ∀ v ∈ timeline, ∀ t ∈ minuteSteps v.StartTime v.EndTime,
      t.secs < sS.secs ∨ sE.secs < t.secs) :
    sessionAcc fmt sS sE timeline = durAcc.zero := by
  unfold sessionAcc
  induction timeline with
  | nil => rfl
  | cons v rest ih =>
      rw [List.foldl_cons, walk_skip_all fmt sS sE v.EndTime
        (stepCount 60 v.StartTime v.EndTime) v.StartTime false durAcc.zero rfl
        (hout v (List.mem_cons_self v rest))]
      exact ih (fun v' hv' => hout v' (List.mem_cons_of_mem v hv'))

theorem map_minutes_histUpdate (h : List (Label × quantity)) (k : Label)
    (g : quantity → quantity) (hg : ∀ q, (g q).minutes = q.minutes) :
    (histUpdate h k g).map (fun e => e.2.minutes) = h.map (fun e => e.2.minutes) := by
  induction h with
  | nil => rfl
  | cons e t ih =>
      show (if e.1 = k then (e.1, g e.2) else e).2.minutes ::
          (histUpdate t k g).map (fun e => e.2.minutes)
        = e.2.minutes :: t.map (fun e => e.2.minutes)
      rw [ih]
      split_ifs
      · rw [hg]
      · rfl

theorem map_minutes_flush_zero (h : List (Label × quantity)) (f : Label → Int)
    (hf : ∀ k, f k = 0) :
    (h.map fun e => (e.1, { e.2 with minutes := e.2.minutes + roundDiv (f e.1) minutesInAnHour })).map (fun e => e.2.minutes) = h.map (fun e => e.2.minutes) := by
  induction h with
  | nil => rfl
  | cons e t ih =>
      show (e.2.minutes + roundDiv (f e.1) minutesInAnHour) :: _ = e.2.minutes :: _
      rw [ih, hf e.1]
      show (e.2.minutes + 0) :: _ = _
      rw [add_zero]

theorem roundDiv_zero_sixty : roundDiv 0 minutesInAnHour = 0 := rfl

/-- A session all of whose minute-steps fall outside the window adds no
minutes anywhere: totals, every weekday and hour bucket, and every history
entry keep their minutes (the completed/abandoned counters may still be
attributed). -/
theorem step_outwindow (sS sE : Time) (d : Data) (s : session)
    (hout : ∀ v ∈ s.Timeline, ∀ t ∈ minuteSteps v.StartTime v.EndTime,
      t.secs < sS.secs ∨ sE.secs < t.secs) :
    (computeTotalsStep sS sE d s).Totals.minutes = d.Totals.minutes ∧
    ((computeTotalsStep sS sE d s).History.map fun e => e.2.minutes)
      = (d.History.map fun e => e.2.minutes) ∧
    (∀ k, ((computeTotalsStep sS sE d s).Weekday k).minutes = (d.Weekday k).minutes) ∧
    (∀ k, ((computeTotalsStep sS sE d s).HourofDay k).minutes = (d.HourofDay k).minutes) := by
  by_cases hz : s.EndTime.secs = 0
  · have hstep : computeTotalsStep sS sE d s = d := by
      unfold computeTotalsStep
      rw [if_pos hz]
    rw [hstep]
    exact ⟨rfl, rfl, fun _ => rfl, fun _ => rfl⟩
  · have hstep : computeTotalsStep sS sE d s = computeTotalsBody sS sE d s := by
      unfold computeTotalsStep
      rw [if_neg hz]
    have hacc : sessionAcc d.HistoryKeyFormat sS sE s.Timeline = durAcc.zero :=
      sessionAcc_skip d.HistoryKeyFormat sS sE s.Timeline hout
    have hzerodaily : ∀ k, durAcc.zero.daily k = 0 := fun _ => rfl
    have hcalcHist : (calculateSessionDuration d s sS sE).1.History = d.History.map (fun e => (e.1, { e.2 with minutes := e.2.minutes + roundDiv (durAcc.zero.daily e.1) minutesInAnHour })) := by
      have h0 : (calculateSessionDuration d s sS sE).1.History = d.History.map (fun e => (e.1, { e.2 with minutes := e.2.minutes + roundDiv ((sessionAcc d.HistoryKeyFormat sS sE s.Timeline).daily e.1) minutesInAnHour })) := rfl
      rw [h0, hacc]
    have hcalcSecs : (calculateSessionDuration d s sS sE).2 = 0 := by
      show (sessionAcc d.HistoryKeyFormat sS sE s.Timeline).seconds = 0
      rw [hacc]
      rfl
    have hW : ∀ k, ((calculateSessionDuration d s sS sE).1.Weekday k).minutes
        = (d.Weekday k).minutes := by
      intro k
      show (d.Weekday k).minutes +
        roundDiv ((sessionAcc d.HistoryKeyFormat sS sE s.Timeline).weekday k)
          minutesInAnHour = _
      rw [hacc]
      show (d.Weekday k).minutes + roundDiv 0 minutesInAnHour = _
      rw [roundDiv_zero_sixty, add_zero]
    have hH : ∀ k, ((calculateSessionDuration d s sS sE).1.HourofDay k).minutes
        = (d.HourofDay k).minutes := by
      intro k
      show (d.HourofDay k).minutes +
        roundDiv ((sessionAcc d.HistoryKeyFormat sS sE s.Timeline).hourly k)
          minutesInAnHour = _
      rw [hacc]
      show (d.HourofDay k).minutes + roundDiv 0 minutesInAnHour = _
      rw [roundDiv_zero_sixty, add_zero]
    have hHist : ((calculateSessionDuration d s sS sE).1.History.map fun e => e.2.minutes)
        = d.History.map fun e => e.2.minutes := by
      rw [hcalcHist]
      exact map_minutes_flush_zero d.History durAcc.zero.daily hzerodaily
    rw [hstep]
    cases hc : s.Completed with
    | true =>
        have hb : computeTotalsBody sS sE d s = { (calculateSessionDuration d s sS sE).1 with Weekday := incCompleted (calculateSessionDuration d s sS sE).1.Weekday s.StartTime.weekday, HourofDay := incCompleted (calculateSessionDuration d s sS sE).1.HourofDay s.StartTime.hour, History := histUpdate (calculateSessionDuration d s sS sE).1.History (formatTime (calculateSessionDuration d s sS sE).1.HistoryKeyFormat s.StartTime) (fun q => { q with completed := q.completed + 1 }), Totals := { (calculateSessionDuration d s sS sE).1.Totals with completed := (calculateSessionDuration d s sS sE).1.Totals.completed + 1, minutes := (calculateSessionDuration d s sS sE).1.Totals.minutes + roundDiv (calculateSessionDuration d s sS sE).2 minutesInAnHour } } := by
          unfold computeTotalsBody
          rw [hc]
          rfl
        rw [hb]
        refine ⟨?_, ?_, ?_, ?_⟩
        · show (calculateSessionDuration d s sS sE).1.Totals.minutes +
            roundDiv (calculateSessionDuration d s sS sE).2 minutesInAnHour = _
          rw [hcalcSecs]
          show d.Totals.minutes + roundDiv 0 minutesInAnHour = _
          rw [roundDiv_zero_sixty, add_zero]
        · show ((histUpdate (calculateSessionDuration d s sS sE).1.History
              (formatTime (calculateSessionDuration d s sS sE).1.HistoryKeyFormat s.StartTime)
              (fun q => { q with completed := q.completed + 1 })).map fun e => e.2.minutes) = _
          rw [map_minutes_histUpdate ((calculateSessionDuration d s sS sE).1.History)
            (formatTime (calculateSessionDuration d s sS sE).1.HistoryKeyFormat s.StartTime)
            (fun q => { q with completed := q.completed + 1 }) (fun q => rfl), hHist]
        · intro k
          show ((incCompleted (calculateSessionDuration d s sS sE).1.Weekday
            s.StartTime.weekday) k).minutes = _
          unfold incCompleted
          split_ifs
          · exact hW k
          · exact hW k
        · intro k
          show ((incCompleted (calculateSessionDuration d s sS sE).1.HourofDay
            s.StartTime.hour) k).minutes = _
          unfold incCompleted
          split_ifs
          · exact hH k
          · exact hH k
    | false =>
        have hb : computeTotalsBody sS sE d s = { (calculateSessionDuration d s sS sE).1 with Weekday := incAbandoned (calculateSessionDuration d s sS sE).1.Weekday s.StartTime.weekday, HourofDay := incAbandoned (calculateSessionDuration d s sS sE).1.HourofDay s.StartTime.hour, History := histUpdate (calculateSessionDuration d s sS sE).1.History (formatTime (calculateSessionDuration d s sS sE).1.HistoryKeyFormat s.StartTime) (fun q => { q with abandoned := q.abandoned + 1 }), Totals := { (calculateSessionDuration d s sS sE).1.Totals with abandoned := (calculateSessionDuration d s sS sE).1.Totals.abandoned + 1, minutes := (calculateSessionDuration d s sS sE).1.Totals.minutes + roundDiv (calculateSessionDuration d s sS sE).2 minutesInAnHour } } := by
          unfold computeTotalsBody
          rw [hc]
          rfl
        rw [hb]
        refine ⟨?_, ?_, ?_, ?_⟩
        · show (calculateSessionDuration d s sS sE).1.Totals.minutes +
            roundDiv (calculateSessionDuration d s sS sE).2 minutesInAnHour = _
          rw [hcalcSecs]
          show d.Totals.minutes + roundDiv 0 minutesInAnHour = _
          rw [roundDiv_zero_sixty, add_zero]
        · show ((histUpdate (calculateSessionDuration d s sS sE).1.History
              (formatTime (calculateSessionDuration d s sS sE).1.HistoryKeyFormat s.StartTime)
              (fun q => { q with abandoned := q.abandoned + 1 })).map fun e => e.2.minutes) = _
          rw [map_minutes_histUpdate ((calculateSessionDuration d s sS sE).1.History)
            (formatTime (calculateSessionDuration d s sS sE).1.HistoryKeyFormat s.StartTime)
            (fun q => { q with abandoned := q.abandoned + 1 }) (fun q => rfl), hHist]
        · intro k
          show ((incAbandoned (calculateSessionDuration d s sS sE).1.Weekday
            s.StartTime.weekday) k).minutes = _
          unfold incAbandoned
          split_ifs
          · exact hW k
          · exact hW k
        · intro k
          show ((incAbandoned (calculateSessionDuration d s sS sE).1.HourofDay
            s.StartTime.hour) k).minutes = _
          unfold incAbandoned
          split_ifs
          · exact hH k
          · exact hH k

/-! ## Claim theorems: totals/history invariant (C1) -/

theorem computeAverages_Totals (d : Data) (start endT : Time) :
    (computeAverages d start endT).Totals = d.Totals := rfl

theorem computeAverages_History (d : Data) (start endT : Time) :
    (computeAverages d start endT).History = d.History := rfl

/-- Every timeline sub-interval of the session lies entirely inside the
reporting window and starts and ends on whole-minute boundaries. -/
abbrev sessionWindowAligned (sS sE : Time) (s : session) : Prop :=
  ∀ v ∈ s.Timeline, sS.secs ≤ v.StartTime.secs ∧ v.EndTime.secs ≤ sE.secs ∧
    60 ∣ v.StartTime.secs ∧ 60 ∣ v.EndTime.secs

/-- Every timeline sub-interval of the session lies entirely inside the
reporting window (the claim's "every minute falls inside [start, end]"). -/
abbrev sessionInWindow (sS sE : Time) (s : session) : Prop :=
  ∀ v ∈ s.Timeline, sS.secs ≤ v.StartTime.secs ∧ v.EndTime.secs ≤ sE.secs

/-- Every calendar-bucket label computed for a minute-step of the session is
in the given key set (the claim's "every computed label is pre-populated"). -/
abbrev sessionLabelsCovered (fmt : KeyFormat) (keys : List Label) (s : session) : Prop :=
  ∀ v ∈ s.Timeline, ∀ t ∈ minuteSteps v.StartTime v.EndTime,
    formatTime fmt t ∈ keys

/-- Every minute-step of the session falls strictly outside the window. -/
abbrev sessionOutOfWindow (sS sE : Time) (s : session) : Prop :=
  ∀ v ∈ s.Timeline, ∀ t ∈ minuteSteps v.StartTime v.EndTime,
    t.secs < sS.secs ∨ sE.secs < t.secs

/-- The clamped step-seconds of the minute-step starting at `date`
(stats.go lines 208-215): the step end is the sub-interval end when fewer
than 60 seconds remain. -/
def stepSecs (vEnd date : Time) : Int :=
  (if vEnd.secs < date.secs + 60 then vEnd else ⟨date.secs + 60⟩).secs - date.secs

/-- The three per-minute accumulator maps of the walk (without the
`seconds` counter). -/
structure bucketAcc where
  hourly : Int → Int
  weekday : Int → Int
  daily : Label → Int

/-- The bucket part of a walk accumulator. -/
def durAcc.buckets (acc : durAcc) : bucketAcc :=
  ⟨acc.hourly, acc.weekday, acc.daily⟩

/-- The contribution of one retained minute-step to the three accumulator
maps (stats.go lines 217-219). -/
def bucketStep (fmt : KeyFormat) (vEnd : Time) (b : bucketAcc) (date : Time) : bucketAcc :=
  ⟨bump b.hourly date.hour (stepSecs vEnd date),
   bump b.weekday date.weekday (stepSecs vEnd date),
   bump b.daily (formatTime fmt date) (stepSecs vEnd date)⟩

/-- The retention test of the walk (the negation of the skip condition of
stats.go line 204). -/
def inWindowB (sS sE : Time) (t : Time) : Bool :=
  !(decide (t.secs < sS.secs) || decide (sE.secs < t.secs))

theorem minuteSteps_nil (a b : Time) (h : stepCount 60 a b = 0) :
    minuteSteps a b = [] := by
  unfold minuteSteps
  rw [h]
  rfl

/-- The walk's hour-of-day, weekday and daily accumulators are exactly the
fold of the in-window minute-steps: minute-steps outside `[sS, sE]`
contribute to no bucket accumulator, and every retained step contributes
its clamped seconds. -/
theorem walk_buckets_aux (fmt : KeyFormat) (sS sE vEnd : Time) :
    ∀ (n : Nat) (date : Time) (dA : Bool) (acc : durAcc),
      n = stepCount 60 date vEnd →
      (walkTimeline fmt sS sE vEnd n date dA acc).buckets =
        ((minuteSteps date vEnd).filter (inWindowB sS sE)).foldl
          (bucketStep fmt vEnd) acc.buckets := by
  intro n
  induction n with
  | zero =>
      intro date dA acc hn
      rw [minuteSteps_nil date vEnd hn.symm]
      rfl
  | succ m ih =>
      intro date dA acc hn
      have h1 : ¬ vEnd.secs < date.secs := by
        intro h
        rw [stepCount_zero_of_lt date vEnd h] at hn
        omega
      have hle : date.secs ≤ vEnd.secs := by omega
      have hm : m = stepCount 60 ⟨date.secs + 60⟩ vEnd := by
        rw [stepCount_succ60 date vEnd hle] at hn
        omega
      rw [minuteSteps_cons date vEnd hle, List.filter_cons]
      by_cases hskip : date.secs < sS.secs ∨ sE.secs < date.secs
      · have hw : inWindowB sS sE date = false := by
          unfold inWindowB
          rcases hskip with h | h
          · rw [decide_eq_true h]
            rfl
          · rw [decide_eq_true h]
            cases decide (date.secs < sS.secs) <;> rfl
        rw [walkTimeline_skip fmt sS sE vEnd m date dA acc h1 hskip, hw]
        rw [if_neg (by exact Bool.false_ne_true)]
        exact ih ⟨date.secs + 60⟩ dA acc hm
      · have hw : inWindowB sS sE date = true := by
          unfold inWindowB
          push_neg at hskip
          rw [decide_eq_false (by omega : ¬ date.secs < sS.secs),
            decide_eq_false (by omega : ¬ sE.secs < date.secs)]
          rfl
        rw [walkTimeline_step fmt sS sE vEnd m date dA acc h1 hskip, hw, if_pos rfl,
          List.foldl_cons]
        rw [ih ⟨date.secs + 60⟩ true _ hm]
        rfl

/-- Claim C1, amended: (1) when every counted session's timeline
sub-intervals lie inside `[start, end]`, are aligned to whole-minute
boundaries, and all their computed labels are pre-populated, the
aggregation pipeline of `Stats.Show` yields
`totals.minutes = sum over history of minutes` (the claim's unaligned
version fails because totals round the session's seconds once while
history rounds per label — see the counterexample); (2) minute-steps
outside `[start, end]` are never counted into any hour-of-day, weekday or
history accumulator: the walk's three bucket accumulators are exactly the
fold of the retained in-window minute-steps; (3) out-of-window minutes are
however NOT always excluded from `totals.minutes` — a sub-interval
extending past the window end spills its full remaining duration into the
session's seconds (see the counterexample's spill session); what holds is
that a session all of whose minute-steps lie outside the window
contributes no minutes to the totals, the history, or any weekday or
hour-of-day bucket. -/
theorem claim_C1 :
    (∀ (sessions : List session) (sS sE : Time),
      (∀ s ∈ sessions, s.EndTime.secs ≠ 0 →
        sessionWindowAligned sS sE s ∧
        sessionLabelsCovered (initData sS sE (showHoursDiff sS sE)).HistoryKeyFormat
          (histKeys (initData sS sE (showHoursDiff sS sE)).History) s) →
      (showCompute sessions sS sE).Totals.minutes
        = histMinutes (showCompute sessions sS sE).History) ∧
    (∀ (fmt : KeyFormat) (sS sE vEnd date : Time) (dA : Bool) (acc : durAcc),
      (walkTimeline fmt sS sE vEnd (stepCount 60 date vEnd) date dA acc).buckets =
        ((minuteSteps date vEnd).filter (inWindowB sS sE)).foldl
          (bucketStep fmt vEnd) acc.buckets) ∧
    (∀ (sS sE : Time) (d : Data) (s : session), sessionOutOfWindow sS sE s →
      (computeTotalsStep sS sE d s).Totals.minutes = d.Totals.minutes ∧
      ((computeTotalsStep sS sE d s).History.map fun e => e.2.minutes)
        = (d.History.map fun e => e.2.minutes) ∧
      (∀ k, ((computeTotalsStep sS sE d s).Weekday k).minutes = (d.Weekday k).minutes) ∧
      (∀ k, ((computeTotalsStep sS sE d s).HourofDay k).minutes = (d.HourofDay k).minutes)) := by
  refine ⟨?_, ?_, ?_⟩
  · intro sessions sS sE hyp
    have hTot : (showCompute sessions sS sE).Totals
        = (computeTotals (initData sS sE (showHoursDiff sS sE)) sessions sS sE).Totals := rfl
    have hHist : (showCompute sessions sS sE).History
        = (computeTotals (initData sS sE (showHoursDiff sS sE)) sessions sS sE).History := rfl
    rw [hTot, hHist]
    have hinv := computeTotals_invariant sS sE sessions
      (initData sS sE (showHoursDiff sS sE))
      (initData_nodup sS sE (showHoursDiff sS sE))
      (by
        intro s hs hnz v hv
        obtain ⟨hwa, hlbl⟩ := hyp s hs hnz
        obtain ⟨h1, h2, h3, h4⟩ := hwa v hv
        exact ⟨h1, h2, h3, h4, hlbl v hv⟩)
    have hz1 : (initData sS sE (showHoursDiff sS sE)).Totals.minutes = 0 := rfl
    have hz2 := initData_histMinutes sS sE (showHoursDiff sS sE)
    omega
  · intro fmt sS sE vEnd date dA acc
    exact walk_buckets_aux fmt sS sE vEnd (stepCount 60 date vEnd) date dA acc rfl
  · intro sS sE d s hout
    exact step_outwindow sS sE d s hout

/-- The concrete session refuting the rounding half of the claim:
completed, inside the two-day window `[0, 172799]`, with two 90-second
sub-intervals on the two different days. -/
def c1Session : session :=
  ⟨⟨3600⟩, ⟨90000⟩, true, [⟨⟨3600⟩, ⟨3690⟩⟩, ⟨⟨90000⟩, ⟨90090⟩⟩]⟩

/-- The concrete session refuting the totals half of the claim: a single
sub-interval `[85800, 87000]` overlapping the end of the one-day window
`[0, 86399]` — only 10 of its 20 minutes lie inside the window. -/
def c1SpillSession : session :=
  ⟨⟨85800⟩, ⟨87000⟩, true, [⟨⟨85800⟩, ⟨87000⟩⟩]⟩

/-- Claim C1 counterexample.  Rounding half: for the two-day window
`[0, 172799]` and the single completed session `c1Session`, every minute of
the timeline lies in the window and every computed label is pre-populated,
yet after the pipeline `totals.minutes = 3` (round(180s/60) once) while the
history minutes sum to `4` (round(90s/60) = 2 per day label).  Totals half:
for the window `[0, 86399]` and the session `c1SpillSession`, only 10
minutes lie inside the window — the hour-23 bucket and the history both
receive 10 minutes — yet `totals.minutes = 20`: the first retained
minute-step adds the full remaining sub-interval duration
`v.EndTime.Sub(date)` (stats.go lines 221-224) without clamping to the
window end, so 10 out-of-window minutes are counted into the totals. -/
theorem claim_C1_counterexample :
    sessionInWindow ⟨0⟩ ⟨172799⟩ c1Session ∧
    sessionLabelsCovered (initData ⟨0⟩ ⟨172799⟩ (showHoursDiff ⟨0⟩ ⟨172799⟩)).HistoryKeyFormat
      (histKeys (initData ⟨0⟩ ⟨172799⟩ (showHoursDiff ⟨0⟩ ⟨172799⟩)).History) c1Session ∧
    (showCompute [c1Session] ⟨0⟩ ⟨172799⟩).Totals.minutes = 3 ∧
    histMinutes (showCompute [c1Session] ⟨0⟩ ⟨172799⟩).History = 4 ∧
    ¬ ((showCompute [c1Session] ⟨0⟩ ⟨172799⟩).Totals.minutes
        = histMinutes (showCompute [c1Session] ⟨0⟩ ⟨172799⟩).History) ∧
    ((showCompute [c1SpillSession] ⟨0⟩ ⟨86399⟩).HourofDay 23).minutes = 10 ∧
    ((showCompute [c1SpillSession] ⟨0⟩ ⟨86399⟩).HourofDay 0).minutes = 0 ∧
    histMinutes (showCompute [c1SpillSession] ⟨0⟩ ⟨86399⟩).History = 10 ∧
    (showCompute [c1SpillSession] ⟨0⟩ ⟨86399⟩).Totals.minutes = 20 ∧
    ¬ ((showCompute [c1SpillSession] ⟨0⟩ ⟨86399⟩).Totals.minutes = 10) := by
  refine ⟨by decide, by decide, by decide, by decide, by decide,
    by decide, by decide, by decide, by decide, by decide⟩

/-- A minute-aligned in-window session for the C1 witness. -/
def c1AlignedSession : session :=
  ⟨⟨3600⟩, ⟨90000⟩, true, [⟨⟨3600⟩, ⟨3660⟩⟩, ⟨⟨90000⟩, ⟨90060⟩⟩]⟩

/-- A session whose single sub-interval lies entirely after the window
`[0, 86399]`, for the out-of-window part of the C1 witness. -/
def c1OutsideSession : session :=
  ⟨⟨172800⟩, ⟨172920⟩, true, [⟨⟨172800⟩, ⟨172920⟩⟩]⟩

theorem claim_C1_witness :
    ((∀ s ∈ [c1AlignedSession], s.EndTime.secs ≠ 0 →
      sessionWindowAligned ⟨0⟩ ⟨172799⟩ s ∧
      sessionLabelsCovered
        (initData ⟨0⟩ ⟨172799⟩ (showHoursDiff ⟨0⟩ ⟨172799⟩)).HistoryKeyFormat
        (histKeys (initData ⟨0⟩ ⟨172799⟩ (showHoursDiff ⟨0⟩ ⟨172799⟩)).History) s) ∧
    (showCompute [c1AlignedSession] ⟨0⟩ ⟨172799⟩).Totals.minutes
      = histMinutes (showCompute [c1AlignedSession] ⟨0⟩ ⟨172799⟩).History) ∧
    (sessionOutOfWindow ⟨0⟩ ⟨86399⟩ c1OutsideSession ∧
      (computeTotalsStep ⟨0⟩ ⟨86399⟩ c8Data c1OutsideSession).Totals.minutes
        = c8Data.Totals.minutes) :=
  ⟨⟨by decide, claim_C1.1 [c1AlignedSession] ⟨0⟩ ⟨172799⟩ (by decide)⟩,
   ⟨by decide,
    (claim_C1.2.2 ⟨0⟩ ⟨86399⟩ c8Data c1OutsideSession (by decide)).1⟩⟩

end Focus
